import Mathlib

/-!
Verification of the workflow-engine core of the data_science_beta repository.

The development shallowly embeds the Python sources:
* `src/backend/components/base_component.py` (ports, inputs/outputs, status,
  progress, validation) as `Component` and its operations;
* `src/backend/core/workflow_engine.py` (`WorkflowEngine.execute`,
  `_build_execution_graph`, `_topological_sort`, `_gather_inputs`);
* `src/frontend/ui/canvas.py` (`WorkflowCanvas.can_connect`,
  `_get_execution_order`, `validate_workflow`, `_has_cycles`,
  `execute_workflow`, `_execute_component`, `_get_component_inputs`,
  `save_state` / `restore_state` / `restore_connection`).

Python values are modelled by `PV`, Python dictionaries by association lists
in insertion order, and raising code by `Except PyErr`.
-/

namespace Workflow

/-- Model of a Python runtime value as used by the workflow code: None, a
string, an integer, or a dict with string keys in insertion order. -/
inductive PV : Type where
  | none : PV
  | str (s : String) : PV
  | int (n : Int) : PV
  | dict (kvs : List (String × PV)) : PV

/-- Model of the Python exceptions that the embedded code can raise. -/
inductive PyErr : Type where
  | keyError (k : String)
  | typeError (msg : String)
  | valueError (msg : String)
  | attributeError (msg : String)
  | runtimeError (msg : String)
deriving DecidableEq

/-- Rendering str(e) of an exception (quotation marks of the CPython
rendering of KeyError are not reproduced). -/
def PyErr.toMsg : PyErr → String
  | .keyError k => k
  | .typeError m => m
  | .valueError m => m
  | .attributeError m => m
  | .runtimeError m => m

/-- Lookup in a Python dict modelled as an association list: the first
binding of the key, if any. -/
def dlookup {α : Type} (kvs : List (String × α)) (k : String) : Option α :=
  match kvs with
  | [] => Option.none
  | (k₁, v) :: rest => if k₁ = k then some v else dlookup rest k

/-- Assignment d[k] = v on a Python dict: an existing binding is updated in
place (keeping its position), a new key is appended at the end. -/
def dset {α : Type} (kvs : List (String × α)) (k : String) (v : α) :
    List (String × α) :=
  match kvs with
  | [] => [(k, v)]
  | (k₁, v₁) :: rest => if k₁ = k then (k₁, v) :: rest else (k₁, v₁) :: dset rest k v

mutual

/-- Python equality test between two values; dict comparison is modelled
structurally in insertion order (the embedded code only ever compares
non-dict values for equality). -/
def PV.beq : PV → PV → Bool
  | .none, .none => true
  | .str a, .str b => a == b
  | .int a, .int b => a == b
  | .dict a, .dict b => PV.beqKVs a b
  | _, _ => false

/-- Structural comparison of two modelled dicts, used by `PV.beq`. -/
def PV.beqKVs : List (String × PV) → List (String × PV) → Bool
  | [], [] => true
  | (k, v) :: r, (k₁, v₁) :: r₁ => k == k₁ && PV.beq v v₁ && PV.beqKVs r r₁
  | _, _ => false

end

end Workflow

namespace Workflow

/-- Subscript v[k] with a string key: succeeds on a dict containing the key,
raises KeyError on a dict without it, TypeError on every other value
(in particular on None, which is how unset port values fail). -/
def PV.subscript : PV → String → Except PyErr PV
  | .dict kvs, k =>
    match dlookup kvs k with
    | some v => .ok v
    | Option.none => .error (.keyError k)
  | .none, _ => .error (.typeError "NoneType object is not subscriptable")
  | .str _, _ => .error (.typeError "string indices must be integers")
  | .int _, _ => .error (.typeError "int object is not subscriptable")

/-- Iteration v.items() over a dict; any non-dict value raises
AttributeError. -/
def PV.items : PV → Except PyErr (List (String × PV))
  | .dict kvs => .ok kvs
  | .none => .error (.attributeError "NoneType object has no attribute items")
  | .str _ => .error (.attributeError "str object has no attribute items")
  | .int _ => .error (.attributeError "int object has no attribute items")

/-- Result record the engine stores for a component whose processing raised:
a dict with status error and the stringified exception, as built in the
except branch of `WorkflowEngine.execute` and of
`WorkflowCanvas._execute_component`. -/
def pyErrorDict (e : PyErr) : PV :=
  .dict [("status", .str "error"), ("error", .str e.toMsg)]

end Workflow

namespace Workflow

section Graph

variable {V : Type} [DecidableEq V]

/-- Number of occurrences of an element in a list (the multiplicity with
which a dependent appears in a dependents list). -/
def countOcc (w : V) : List V → Nat
  | [] => 0
  | x :: rest => (if x = w then 1 else 0) + countOcc w rest

/-- In-degree of a component: the number of connections targeting it, as in
in_degree of `_topological_sort` (length of the dependencies list built by
`_build_execution_graph`) and as accumulated by
`WorkflowCanvas._get_execution_order`. -/
def indegN (edges : List (V × V)) (w : V) : Nat :=
  (edges.filter (fun e => decide (e.2 = w))).length

/-- Dependents of a component in connection order, with one entry per
connection, as appended by `_build_execution_graph`. -/
def dependents (edges : List (V × V)) (v : V) : List V :=
  (edges.filter (fun e => decide (e.1 = v))).map Prod.snd

/-- Inner loop of Kahn's algorithm: walk the dependents of the popped
component, decrement each in-degree, and enqueue a dependent whose
in-degree reaches exactly zero (Python integers go negative, so the counter
is an Int). -/
def stepDeps (dep : List V) (deg : V → Int) (queue : List V) :
    (V → Int) × List V :=
  dep.foldl
    (fun s d =>
      let dg : V → Int := fun x => if x = d then s.1 d - 1 else s.1 x
      if dg d = 0 then (dg, s.2 ++ [d]) else (dg, s.2))
    (deg, queue)

/-- Fuel-bounded main loop of Kahn's algorithm (pop the queue front, append
it to the order, process its dependents); the fuel only bounds the number of
iterations of the Python while loop, and `kahnLoop_spec` shows that fuel
`nodes.length` always suffices to drain the queue. Returns the order built
so far together with the remaining queue. -/
def kahnLoop (dep : V → List V) : Nat → (V → Int) → List V → List V →
    List V × List V
  | 0, _, queue, order => (order, queue)
  | _ + 1, _, [], order => (order, [])
  | fuel + 1, deg, v :: rest, order =>
    let s := stepDeps (dep v) deg rest
    kahnLoop dep fuel s.1 s.2 (order ++ [v])

/-- Initial ready queue: the components of in-degree zero, in components
insertion order. -/
def initQueue (nodes : List V) (edges : List (V × V)) : List V :=
  nodes.filter (fun v => decide (indegN edges v = 0))

/-- Model of `WorkflowCanvas._get_execution_order`: raises RuntimeError when
the initial queue is empty (also on the empty graph), runs Kahn over the
dependents sets (the canvas stores dependents in a Python set, so parallel
connections between the same pair of components are deduplicated there,
while in_degree counts every connection), and raises RuntimeError when the
order misses a component. -/
def canvasGetExecutionOrder (nodes : List V) (edges : List (V × V)) :
    Except String (List V) :=
  let queue := initQueue nodes edges
  if queue.isEmpty then
    .error "Circular dependency detected: no valid starting point found"
  else
    let r := kahnLoop (fun v => (dependents edges v).dedup) nodes.length
      (fun v => (indegN edges v : Int)) queue []
    if r.1.length = nodes.length then .ok r.1
    else .error "Circular dependency detected: not all components can be ordered"

/-- Model of `WorkflowEngine._topological_sort`: the source creates the
ready queue as an asyncio.Queue and calls queue.put(...) without awaiting
the coroutine, so nothing is ever enqueued, queue.empty() stays true, the
while loop never runs and execution_order is always the empty list; the
in-degree dict is computed but never used. Hence the length check fails,
with a cycle error, for every nonempty graph. -/
def backendTopologicalSort (nodes : List V) (_edges : List (V × V)) :
    Except String (List V) :=
  let execution_order : List V := []
  if execution_order.length = nodes.length then .ok execution_order
  else .error "Workflow contains cycles"

/-- Auxiliary count lemma: members occur at least once. -/
theorem countOcc_pos_of_mem {w : V} {l : List V} (h : w ∈ l) :
    1 ≤ countOcc w l := by
  induction l with
  | nil => cases h
  | cons x rest ih =>
    rcases List.mem_cons.1 h with h | h
    · subst h; simp [countOcc]
    · have := ih h
      simp only [countOcc]
      omega

/-- Auxiliary count lemma: non-members occur zero times. -/
theorem countOcc_eq_zero_of_not_mem {w : V} {l : List V} (h : w ∉ l) :
    countOcc w l = 0 := by
  induction l with
  | nil => rfl
  | cons x rest ih =>
    have hx : x ≠ w := fun hxw => h (hxw ▸ List.mem_cons_self x rest)
    have hr : w ∉ rest := fun hw => h (List.mem_cons_of_mem x hw)
    simp [countOcc, hx, ih hr]

/-- Auxiliary count lemma: a positive count implies membership. -/
theorem mem_of_countOcc_pos {w : V} {l : List V} (h : 1 ≤ countOcc w l) :
    w ∈ l := by
  by_contra hw
  rw [countOcc_eq_zero_of_not_mem hw] at h
  omega

/-- Characterisation of the inner dependents loop of Kahn's algorithm: every
counter drops by the multiplicity of the dependent, the queue only grows at
its back, and a dependent is enqueued exactly when its counter reaches zero,
which (under the stated lower bound on counters) happens exactly when its
initial counter equals its multiplicity. -/
theorem stepDeps_spec :
    ∀ (l : List V) (deg : V → Int) (queue : List V),
      (∀ d ∈ l, (countOcc d l : Int) ≤ deg d) →
      (∀ q ∈ queue, deg q = 0) →
      (∀ w, (stepDeps l deg queue).1 w = deg w - countOcc w l) ∧
      ∃ enq, (stepDeps l deg queue).2 = queue ++ enq ∧ enq.Nodup ∧
        (∀ x, x ∈ enq ↔ x ∈ l ∧ deg x = (countOcc x l : Int)) := by
  intro l
  induction l with
  | nil =>
    intro deg queue _ _
    refine ⟨fun w => by simp [stepDeps, countOcc], [], by simp [stepDeps], ?_, ?_⟩
    · exact List.nodup_nil
    · intro x; simp
  | cons d₀ t ih =>
    intro deg queue Hge Hq0
    have hge₀ : (countOcc d₀ (d₀ :: t) : Int) ≤ deg d₀ := Hge d₀ (List.mem_cons_self d₀ t)
    have hco₀ : countOcc d₀ (d₀ :: t) = 1 + countOcc d₀ t := by simp [countOcc]
    have hcne : ∀ w : V, w ≠ d₀ → countOcc w (d₀ :: t) = countOcc w t := by
      intro w hw
      have hw₁ : d₀ ≠ w := Ne.symm hw
      simp [countOcc, hw₁]
    have hdeg₀ : 1 + (countOcc d₀ t : Int) ≤ deg d₀ := by
      rw [hco₀] at hge₀; push_cast at hge₀; omega
    have hd₀q : d₀ ∉ queue := fun hq => by have := Hq0 d₀ hq; omega
    have hunfold : stepDeps (d₀ :: t) deg queue =
        stepDeps t (fun x => if x = d₀ then deg d₀ - 1 else deg x)
          (if deg d₀ - 1 = 0 then queue ++ [d₀] else queue) := by
      by_cases hz : deg d₀ - 1 = 0 <;> simp [stepDeps, List.foldl, hz]
    set deg₁ : V → Int := fun x => if x = d₀ then deg d₀ - 1 else deg x with hdeg₁def
    have hd₁self : deg₁ d₀ = deg d₀ - 1 := by simp [hdeg₁def]
    have hd₁other : ∀ w : V, w ≠ d₀ → deg₁ w = deg w := by
      intro w hw; simp [hdeg₁def, hw]
    have hge₁ : ∀ d ∈ t, (countOcc d t : Int) ≤ deg₁ d := by
      intro d hd
      by_cases hdd : d = d₀
      · subst hdd
        rw [hd₁self]
        omega
      · have hc := hcne d hdd
        have := Hge d (List.mem_cons_of_mem d₀ hd)
        rw [hd₁other d hdd]
        omega
    by_cases hz : deg d₀ - 1 = 0
    · -- d₀ is enqueued
      have hq0₁ : ∀ q ∈ queue ++ [d₀], deg₁ q = 0 := by
        intro q hq
        rcases List.mem_append.1 hq with hq | hq
        · have hqz := Hq0 q hq
          have hqd : q ≠ d₀ := fun h => hd₀q (h ▸ hq)
          rw [hd₁other q hqd]; exact hqz
        · have hq : q = d₀ := by simpa using hq
          subst hq
          rw [hd₁self]; exact hz
      obtain ⟨hdeg', enq, henq, hnd, hmem⟩ := ih deg₁ (queue ++ [d₀]) hge₁ hq0₁
      rw [hunfold, if_pos hz]
      have hd₀t : countOcc d₀ t = 0 := by omega
      have hd₀nt : d₀ ∉ t := fun h => by
        have := countOcc_pos_of_mem h; omega
      refine ⟨?_, d₀ :: enq, ?_, ?_, ?_⟩
      · intro w
        rw [hdeg' w]
        by_cases hwd : w = d₀
        · subst hwd
          rw [hd₁self, hco₀]
          push_cast
          omega
        · rw [hcne w hwd, hd₁other w hwd]
      · rw [henq]; simp
      · refine List.nodup_cons.2 ⟨fun hd => ?_, hnd⟩
        have := (hmem d₀).1 hd
        exact hd₀nt this.1
      · intro x
        by_cases hxd : x = d₀
        · subst hxd
          constructor
          · intro _
            refine ⟨List.mem_cons_self x t, ?_⟩
            rw [hco₀, hd₀t]
            push_cast
            omega
          · intro _
            exact List.mem_cons_self x enq
        · have hms : x ∈ d₀ :: enq ↔ x ∈ enq := by
            simp [List.mem_cons, hxd]
          have hml : x ∈ d₀ :: t ↔ x ∈ t := by
            simp [List.mem_cons, hxd]
          rw [hms, hml, hmem x, hcne x hxd, hd₁other x hxd]
    · -- d₀ is not enqueued
      have hq0₁ : ∀ q ∈ queue, deg₁ q = 0 := by
        intro q hq
        have hqz := Hq0 q hq
        have hqd : q ≠ d₀ := fun h => hd₀q (h ▸ hq)
        rw [hd₁other q hqd]; exact hqz
      obtain ⟨hdeg', enq, henq, hnd, hmem⟩ := ih deg₁ queue hge₁ hq0₁
      rw [hunfold, if_neg hz]
      refine ⟨?_, enq, henq, hnd, ?_⟩
      · intro w
        rw [hdeg' w]
        by_cases hwd : w = d₀
        · subst hwd
          rw [hd₁self, hco₀]
          push_cast
          omega
        · rw [hcne w hwd, hd₁other w hwd]
      · intro x
        rw [hmem x]
        by_cases hxd : x = d₀
        · subst hxd
          rw [hco₀]
          constructor
          · rintro ⟨hmt, hdt⟩
            rw [hd₁self] at hdt
            refine ⟨List.mem_cons_self x t, ?_⟩
            push_cast
            omega
          · rintro ⟨_, hdt⟩
            push_cast at hdt
            have hxt2 : x ∈ t := by
              apply mem_of_countOcc_pos
              by_contra hc
              have hc0 : countOcc x t = 0 := by omega
              rw [hc0] at hdt
              omega
            refine ⟨hxt2, ?_⟩
            rw [hd₁self]
            omega
        · have hml : x ∈ d₀ :: t ↔ x ∈ t := by simp [List.mem_cons, hxd]
          rw [hml, hcne x hxd, hd₁other x hxd]

/-- Single step relation of the connection graph: there is a connection from
a to b. -/
def edgeStep (edges : List (V × V)) (a b : V) : Prop := (a, b) ∈ edges

/-- Acyclicity of the connection graph: no component reaches itself through
a nonempty chain of connections. -/
def Acyclic (edges : List (V × V)) : Prop :=
  ∀ v : V, ¬ Relation.TransGen (edgeStep edges) v v

/-- Total number of decrements the counter of w receives from the components
of a set s: the sum of the multiplicities of w in their dependents lists. -/
def cntF (dep : V → List V) (s : Finset V) (w : V) : Nat :=
  Finset.sum s (fun v => countOcc w (dep v))

/-- Well-formedness of a Kahn instance: the node list is duplicate free,
connection endpoints are nodes, the dependents function lists exactly the
connection targets, and summed over all nodes the dependents multiplicities
do not exceed the in-degree. The backend dependents lists satisfy the last
condition with equality; the canvas deduplicated dependents sets satisfy the
inequality (strictly, in the presence of parallel connections). -/
structure KSetup (nodes : List V) (edges : List (V × V)) (dep : V → List V) :
    Prop where
  nnd : nodes.Nodup
  esrc : ∀ e ∈ edges, e.1 ∈ nodes
  etgt : ∀ e ∈ edges, e.2 ∈ nodes
  dmem : ∀ v w : V, w ∈ dep v ↔ (v, w) ∈ edges
  dcnt : ∀ w : V, cntF dep nodes.toFinset w ≤ indegN edges w

/-- Loop invariant of Kahn's algorithm relating the counters, the queue and
the order built so far. -/
structure KInv (nodes : List V) (edges : List (V × V)) (dep : V → List V)
    (deg : V → Int) (queue order : List V) : Prop where
  nodup : (order ++ queue).Nodup
  sub : ∀ v ∈ order ++ queue, v ∈ nodes
  degEq : ∀ w : V, deg w = (indegN edges w : Int) - (cntF dep order.toFinset w : Int)
  qZero : ∀ q ∈ queue, deg q = 0
  oNonpos : ∀ x ∈ order, deg x ≤ 0
  unreached : ∀ v ∈ nodes, v ∉ order → v ∉ queue → deg v ≠ 0
  resp : ∀ e ∈ edges, ∀ l₁ l₂ : List V, order = l₁ ++ e.2 :: l₂ → e.1 ∈ l₁

/-- Components whose counter has reached zero have all the sources of their
incoming connections in the order already built. -/
theorem sourcesInOrder {nodes : List V} {edges : List (V × V)} {dep : V → List V}
    (S : KSetup nodes edges dep) {order : List V} (hsub : ∀ v ∈ order, v ∈ nodes)
    {deg : V → Int}
    (hdegEq : ∀ w : V, deg w = (indegN edges w : Int) - (cntF dep order.toFinset w : Int))
    {w : V} (hw : deg w = 0) :
    ∀ e ∈ edges, e.2 = w → e.1 ∈ order := by
  intro e he htgt
  by_contra hne
  have hu : e.1 ∈ nodes := S.esrc e he
  have hew : (e.1, w) ∈ edges := by
    rw [← htgt]
    simpa using he
  have hcnt1 : 1 ≤ countOcc w (dep e.1) :=
    countOcc_pos_of_mem ((S.dmem e.1 w).2 hew)
  have hsubset : insert e.1 order.toFinset ⊆ nodes.toFinset := by
    intro x hx
    rcases Finset.mem_insert.1 hx with h | h
    · subst h; exact List.mem_toFinset.2 hu
    · exact List.mem_toFinset.2 (hsub x (List.mem_toFinset.1 h))
  have hnotin : e.1 ∉ order.toFinset := fun h => hne (List.mem_toFinset.1 h)
  have hins : cntF dep (insert e.1 order.toFinset) w
      = countOcc w (dep e.1) + cntF dep order.toFinset w :=
    Finset.sum_insert hnotin
  have hle : cntF dep (insert e.1 order.toFinset) w ≤ cntF dep nodes.toFinset w :=
    Finset.sum_le_sum_of_subset hsubset
  have hlen := S.dcnt w
  have h0 := hdegEq w
  rw [hw] at h0
  have h0n : indegN edges w = cntF dep order.toFinset w := by omega
  omega

/-- Splitting a list with a distinguished last element around an occurrence:
the occurrence is the last element, or it lies in the front part. -/
theorem append_singleton_eq_split {o : List V} {v x : V} {l₁ l₂ : List V}
    (h : o ++ [v] = l₁ ++ x :: l₂) :
    (l₂ = [] ∧ l₁ = o ∧ x = v) ∨ ∃ l₃, o = l₁ ++ x :: l₃ ∧ l₂ = l₃ ++ [v] := by
  rcases List.eq_nil_or_concat l₂ with h₂ | ⟨l₃, a, h₂⟩
  · subst h₂
    have hinj := List.append_inj' h (by simp)
    refine Or.inl ⟨rfl, hinj.1.symm, ?_⟩
    have := hinj.2
    simpa using this.symm
  · subst h₂
    right
    have h₃ : o ++ [v] = (l₁ ++ x :: l₃) ++ [a] := by
      rw [h]
      simp [List.concat_eq_append]
    have hinj := List.append_inj' h₃ (by simp)
    refine ⟨l₃, hinj.1, ?_⟩
    have ha : v = a := by simpa using hinj.2
    rw [List.concat_eq_append, ha]

/-- Preservation of the Kahn invariant by one iteration of the while loop:
popping the queue front, appending it to the order and processing its
dependents. -/
theorem kahnStep {nodes : List V} {edges : List (V × V)} {dep : V → List V}
    (S : KSetup nodes edges dep) {deg : V → Int} {v : V} {rest order : List V}
    (I : KInv nodes edges dep deg (v :: rest) order) :
    KInv nodes edges dep (stepDeps (dep v) deg rest).1
      (stepDeps (dep v) deg rest).2 (order ++ [v]) := by
  obtain ⟨hndo, hndq, hdisj⟩ := List.nodup_append.1 I.nodup
  have hvnode : v ∈ nodes := I.sub v (by simp)
  have hvno : v ∉ order := fun h => hdisj h (by simp)
  have hvq : deg v = 0 := I.qZero v (by simp)
  have hosub : ∀ x ∈ order, x ∈ nodes := fun x hx => I.sub x (by simp [hx])
  have hvnf : v ∉ order.toFinset := fun h => hvno (List.mem_toFinset.1 h)
  have hsubset : insert v order.toFinset ⊆ nodes.toFinset := by
    intro x hx
    rcases Finset.mem_insert.1 hx with h | h
    · subst h; exact List.mem_toFinset.2 hvnode
    · exact List.mem_toFinset.2 (hosub x (List.mem_toFinset.1 h))
  have Hge : ∀ d ∈ dep v, (countOcc d (dep v) : Int) ≤ deg d := by
    intro d hd
    have hed : (v, d) ∈ edges := (S.dmem v d).1 hd
    have hins : cntF dep (insert v order.toFinset) d
        = countOcc d (dep v) + cntF dep order.toFinset d :=
      Finset.sum_insert hvnf
    have hle : cntF dep (insert v order.toFinset) d ≤ cntF dep nodes.toFinset d :=
      Finset.sum_le_sum_of_subset hsubset
    have hlen := S.dcnt d
    have h0 := I.degEq d
    omega
  have Hq0 : ∀ q ∈ rest, deg q = 0 := fun q hq => I.qZero q (by simp [hq])
  obtain ⟨hdeg, enq, henq, hennd, hmemq⟩ := stepDeps_spec (dep v) deg rest Hge Hq0
  have henqf : ∀ x ∈ enq, x ∈ dep v ∧ deg x = (countOcc x (dep v) : Int) :=
    fun x hx => (hmemq x).1 hx
  have henqpos : ∀ x ∈ enq, 1 ≤ deg x := by
    intro x hx
    obtain ⟨h1, h2⟩ := henqf x hx
    have := countOcc_pos_of_mem h1
    omega
  have henqnodes : ∀ x ∈ enq, x ∈ nodes := by
    intro x hx
    exact S.etgt _ ((S.dmem v x).1 (henqf x hx).1)
  have henqfresh : ∀ x ∈ enq, x ∉ order ∧ x ≠ v ∧ x ∉ rest := by
    intro x hx
    have hpos := henqpos x hx
    refine ⟨fun ho => ?_, fun hv₁ => ?_, fun hr => ?_⟩
    · have := I.oNonpos x ho; omega
    · rw [hv₁] at hpos; omega
    · have := Hq0 x hr; omega
  constructor
  · -- nodup
    rw [henq]
    have hperm : order ++ [v] ++ (rest ++ enq) = (order ++ v :: rest) ++ enq := by
      simp
    rw [hperm]
    refine List.nodup_append.2 ⟨I.nodup, hennd, ?_⟩
    intro a ha hae
    obtain ⟨h1, h2, h3⟩ := henqfresh a hae
    rcases List.mem_append.1 ha with h | h
    · exact h1 h
    · rcases List.mem_cons.1 h with h | h
      · exact h2 h
      · exact h3 h
  · -- sub
    intro x hx
    rw [henq] at hx
    rcases List.mem_append.1 hx with h | h
    · rcases List.mem_append.1 h with h | h
      · exact hosub x h
      · have : x = v := by simpa using h
        subst this; exact hvnode
    · rcases List.mem_append.1 h with h | h
      · exact I.sub x (by simp [h])
      · exact henqnodes x h
  · -- degEq
    intro w
    rw [hdeg w]
    have hto : (order ++ [v]).toFinset = insert v order.toFinset := by
      ext y
      simp [List.toFinset_append, or_comm]
    rw [hto]
    have hins : cntF dep (insert v order.toFinset) w
        = countOcc w (dep v) + cntF dep order.toFinset w :=
      Finset.sum_insert hvnf
    have h0 := I.degEq w
    omega
  · -- qZero
    intro q hq
    rw [henq] at hq
    rw [hdeg q]
    rcases List.mem_append.1 hq with h | h
    · have hq0 := Hq0 q h
      have hc0 : countOcc q (dep v) = 0 := by
        by_contra hc
        have hqd : q ∈ dep v := mem_of_countOcc_pos (by omega)
        have hed : (v, q) ∈ edges := (S.dmem v q).1 hqd
        have := sourcesInOrder S hosub I.degEq hq0 (v, q) hed rfl
        exact hvno this
      omega
    · obtain ⟨_, h2⟩ := henqf q h
      omega
  · -- oNonpos
    intro x hx
    rw [hdeg x]
    rcases List.mem_append.1 hx with h | h
    · have := I.oNonpos x h
      have : (0 : Int) ≤ (countOcc x (dep v) : Int) := by positivity
      omega
    · have hxv : x = v := by simpa using h
      have h0 : (0 : Int) ≤ (countOcc x (dep v) : Int) := by positivity
      rw [hxv] at h0 ⊢
      omega
  · -- unreached
    intro x hx hxo hxq
    rw [henq] at hxq
    have hxo₁ : x ∉ order := fun h => hxo (by simp [h])
    have hxv : x ≠ v := fun h => hxo (by simp [h])
    have hxr : x ∉ rest := fun h => hxq (by simp [h])
    have hxe : x ∉ enq := fun h => hxq (by simp [h])
    rw [hdeg x]
    by_cases hc : countOcc x (dep v) = 0
    · rw [hc]
      have := I.unreached x hx hxo₁ (by
        intro h
        rcases List.mem_cons.1 h with h | h
        · exact hxv h
        · exact hxr h)
      omega
    · intro h0
      apply hxe
      apply (hmemq x).2
      refine ⟨mem_of_countOcc_pos (by omega), by omega⟩
  · -- resp
    intro e he l₁ l₂ hsplit
    rcases append_singleton_eq_split hsplit with ⟨_, hl₁, hx⟩ | ⟨l₃, ho, _⟩
    · subst hl₁
      exact sourcesInOrder S hosub I.degEq (hx ▸ hvq) e he hx
    · exact I.resp e he l₁ l₃ ho

/-- Main loop lemma: started in the invariant with fuel at least the number
of missing order entries, the loop drains the queue and ends in the
invariant with an empty queue. -/
theorem kahnLoop_spec {nodes : List V} {edges : List (V × V)} {dep : V → List V}
    (S : KSetup nodes edges dep) :
    ∀ (fuel : Nat) (deg : V → Int) (queue order : List V),
      KInv nodes edges dep deg queue order →
      nodes.length ≤ fuel + order.length →
      ∃ degF : V → Int,
        KInv nodes edges dep degF [] (kahnLoop dep fuel deg queue order).1 ∧
        (kahnLoop dep fuel deg queue order).2 = [] := by
  intro fuel
  induction fuel with
  | zero =>
    intro deg queue order I hf
    have hle : order.length + queue.length ≤ nodes.length := by
      have h := (List.Nodup.subperm I.nodup (fun v hv => I.sub v hv)).length_le
      simpa using h
    have hq : queue = [] := by
      have : queue.length = 0 := by omega
      exact List.length_eq_zero.1 this
    subst hq
    exact ⟨deg, I, by simp [kahnLoop]⟩
  | succ fuel ih =>
    intro deg queue order I hf
    cases queue with
    | nil => exact ⟨deg, I, by simp [kahnLoop]⟩
    | cons v rest =>
      have I₁ := kahnStep S I
      have hf₁ : nodes.length ≤ fuel + (order ++ [v]).length := by
        simp only [List.length_append, List.length_cons, List.length_nil]
        omega
      exact ih _ _ _ I₁ hf₁

/-- Initial state of Kahn's algorithm satisfies the invariant. -/
theorem kahnInit {nodes : List V} {edges : List (V × V)} {dep : V → List V}
    (S : KSetup nodes edges dep) :
    KInv nodes edges dep (fun v => (indegN edges v : Int))
      (initQueue nodes edges) [] := by
  constructor
  · simpa [initQueue] using S.nnd.filter _
  · intro v hv
    simp only [List.nil_append, initQueue, List.mem_filter] at hv
    exact hv.1
  · intro w
    simp [cntF]
  · intro q hq
    simp only [initQueue, List.mem_filter, decide_eq_true_eq] at hq
    exact_mod_cast congrArg (Nat.cast : Nat → Int) hq.2
  · intro x hx
    cases hx
  · intro v hv hvo hvq
    have : ¬ (indegN edges v = 0) := by
      intro h0
      exact hvq (List.mem_filter.2 ⟨hv, by simp [h0]⟩)
    intro hc
    exact this (by exact_mod_cast hc)
  · intro e he l₁ l₂ h
    cases l₁ <;> simp at h

/-- Multiplicities summed over a set of sources count the connections into w
whose source lies in the set. -/
theorem cntF_dependents (edges : List (V × V)) (s : Finset V) (w : V) :
    cntF (dependents edges) s w =
      (edges.filter (fun e => decide (e.2 = w) && decide (e.1 ∈ s))).length := by
  induction edges with
  | nil => simp [cntF, dependents, countOcc]
  | cons e rest ihe =>
    have hterm : ∀ u : V, countOcc w (dependents (e :: rest) u) =
        countOcc w (dependents rest u) +
          (if u = e.1 then (if e.2 = w then 1 else 0) else 0) := by
      intro u
      by_cases h1 : e.1 = u
      · have hu : u = e.1 := h1.symm
        have hdu : dependents (e :: rest) u = e.2 :: dependents rest u := by
          simp [dependents, List.filter_cons, h1]
        rw [hdu]
        by_cases h2 : e.2 = w <;> simp [countOcc, h2, hu] <;> omega
      · have hu : ¬ (u = e.1) := fun h => h1 h.symm
        have hdu : dependents (e :: rest) u = dependents rest u := by
          simp [dependents, List.filter_cons, h1]
        rw [hdu]
        simp [hu]
    have hsum : cntF (dependents (e :: rest)) s w =
        cntF (dependents rest) s w +
          (if e.1 ∈ s then (if e.2 = w then 1 else 0) else 0) := by
      unfold cntF
      rw [Finset.sum_congr rfl (fun u _ => hterm u), Finset.sum_add_distrib]
      congr 1
      exact Finset.sum_ite_eq' s e.1 (fun _ => if e.2 = w then 1 else 0)
    rw [hsum, ihe]
    by_cases h2 : e.2 = w <;> by_cases h3 : e.1 ∈ s <;>
      simp [List.filter_cons, h2, h3]

/-- Filtering by a conjunction keeps no more elements than filtering by one
conjunct. -/
theorem length_filter_and_le {α : Type} (l : List α) (p q : α → Bool) :
    (l.filter (fun a => p a && q a)).length ≤ (l.filter p).length := by
  induction l with
  | nil => simp
  | cons x rest ih =>
    by_cases hp : p x
    · by_cases hq : q x <;> simp [List.filter_cons, hp, hq] <;> omega
    · simp [List.filter_cons, hp, ih]

/-- Well-formed graphs give a Kahn setup for the backend dependents lists,
with the multiplicity bound holding with equality. -/
theorem ksetup_dependents {nodes : List V} {edges : List (V × V)}
    (hnd : nodes.Nodup) (hsrc : ∀ e ∈ edges, e.1 ∈ nodes)
    (htgt : ∀ e ∈ edges, e.2 ∈ nodes) :
    KSetup nodes edges (dependents edges) := by
  refine ⟨hnd, hsrc, htgt, ?_, ?_⟩
  · intro v w
    constructor
    · intro h
      simp only [dependents, List.mem_map, List.mem_filter, decide_eq_true_eq] at h
      obtain ⟨e, ⟨he, h1⟩, h2⟩ := h
      have : e = (v, w) := by
        cases e
        simp only [Prod.mk.injEq]
        exact ⟨h1, h2⟩
      rw [← this]
      exact he
    · intro h
      simp only [dependents, List.mem_map, List.mem_filter, decide_eq_true_eq]
      exact ⟨(v, w), ⟨h, rfl⟩, rfl⟩
  · intro w
    rw [cntF_dependents]
    exact length_filter_and_le edges _ _

/-- Sublists have no more occurrences. -/
theorem countOcc_sublist_le {l₁ l₂ : List V} (h : l₁.Sublist l₂) (w : V) :
    countOcc w l₁ ≤ countOcc w l₂ := by
  induction h with
  | slnil => exact le_rfl
  | cons x _ ih => simp only [countOcc]; omega
  | cons₂ x _ ih => simp only [countOcc]; omega

/-- Well-formed graphs give a Kahn setup for the canvas deduplicated
dependents sets. -/
theorem ksetup_dedup {nodes : List V} {edges : List (V × V)}
    (hnd : nodes.Nodup) (hsrc : ∀ e ∈ edges, e.1 ∈ nodes)
    (htgt : ∀ e ∈ edges, e.2 ∈ nodes) :
    KSetup nodes edges (fun v => (dependents edges v).dedup) := by
  have S := ksetup_dependents hnd hsrc htgt
  refine ⟨hnd, hsrc, htgt, ?_, ?_⟩
  · intro v w
    rw [List.mem_dedup]
    exact S.dmem v w
  · intro w
    have hpt : ∀ v : V, countOcc w (dependents edges v).dedup
        ≤ countOcc w (dependents edges v) :=
      fun v => countOcc_sublist_le (List.dedup_sublist _) w
    calc cntF (fun v => (dependents edges v).dedup) nodes.toFinset w
        ≤ cntF (dependents edges) nodes.toFinset w :=
          Finset.sum_le_sum (fun v _ => hpt v)
      _ ≤ indegN edges w := S.dcnt w

/-- Completeness of Kahn's algorithm for the backend dependents lists: on an
acyclic well-formed graph the final order contains every node. -/
theorem kahn_complete {nodes : List V} {edges : List (V × V)}
    (hnd : nodes.Nodup) (hsrc : ∀ e ∈ edges, e.1 ∈ nodes)
    (htgt : ∀ e ∈ edges, e.2 ∈ nodes) (hacyc : Acyclic edges)
    {degF : V → Int} {ordF : List V}
    (I : KInv nodes edges (dependents edges) degF [] ordF) :
    ∀ v ∈ nodes, v ∈ ordF := by
  have hr : ∀ a b : {x // x ∈ nodes.toFinset},
      Relation.TransGen (edgeStep edges) a.1 b.1 →
      Relation.TransGen (edgeStep edges) a.1 b.1 := fun _ _ h => h
  let r : {x // x ∈ nodes.toFinset} → {x // x ∈ nodes.toFinset} → Prop :=
    fun a b => Relation.TransGen (edgeStep edges) a.1 b.1
  haveI : IsTrans {x // x ∈ nodes.toFinset} r :=
    ⟨fun _ _ _ hab hbc => Relation.TransGen.trans hab hbc⟩
  haveI : IsIrrefl {x // x ∈ nodes.toFinset} r := ⟨fun a ha => hacyc a.1 ha⟩
  have hwf : WellFounded r := Finite.wellFounded_of_trans_of_irrefl r
  have main : ∀ a : {x // x ∈ nodes.toFinset}, a.1 ∈ ordF := by
    intro a
    refine hwf.induction (C := fun b => b.1 ∈ ordF) a ?_
    intro x ihx
    by_contra hxo
    have hdz : degF x.1 ≠ 0 :=
      I.unreached x.1 (List.mem_toFinset.1 x.2) hxo (by simp)
    apply hdz
    have hall : ∀ e ∈ edges, e.2 = x.1 → e.1 ∈ ordF := by
      intro e he h2
      have hsn : e.1 ∈ nodes := hsrc e he
      have hstep : edgeStep edges e.1 x.1 := by
        show (e.1, x.1) ∈ edges
        rw [← h2]
        simpa using he
      exact ihx ⟨e.1, List.mem_toFinset.2 hsn⟩ (Relation.TransGen.single hstep)
    have hcnt : cntF (dependents edges) ordF.toFinset x.1 = indegN edges x.1 := by
      rw [cntF_dependents, indegN]
      congr 1
      apply List.filter_congr
      intro e he
      by_cases h2 : e.2 = x.1
      · have := hall e he h2
        simp [h2, List.mem_toFinset.2 this]
      · simp [h2]
    have h0 := I.degEq x.1
    omega
  intro v hv
  exact main ⟨v, List.mem_toFinset.2 hv⟩

/-- Position of the first occurrence of an element in a list. -/
def firstPos (x : V) : List V → Nat
  | [] => 0
  | y :: rest => if y = x then 0 else firstPos x rest + 1

/-- Elements of the front part keep their position under appending, and that
position is within the front part. -/
theorem firstPos_append_left {x : V} {l₁ : List V} (l₂ : List V) (h : x ∈ l₁) :
    firstPos x (l₁ ++ l₂) = firstPos x l₁ ∧ firstPos x l₁ < l₁.length := by
  induction l₁ with
  | nil => cases h
  | cons y rest ih =>
    by_cases hy : y = x
    · simp [firstPos, hy]
    · have hx : x ∈ rest := by
        rcases List.mem_cons.1 h with h | h
        · exact absurd h.symm hy
        · exact h
      obtain ⟨h1, h2⟩ := ih hx
      refine ⟨?_, ?_⟩
      · show (if y = x then 0 else firstPos x (rest ++ l₂) + 1)
            = (if y = x then 0 else firstPos x rest + 1)
        rw [if_neg hy, if_neg hy, h1]
      · show (if y = x then 0 else firstPos x rest + 1) < rest.length + 1
        rw [if_neg hy]
        omega

/-- Position of a distinguished occurrence after a part not containing the
element. -/
theorem firstPos_split {x : V} {l₁ : List V} (l₂ : List V) (h : x ∉ l₁) :
    firstPos x (l₁ ++ x :: l₂) = l₁.length := by
  induction l₁ with
  | nil => simp [firstPos]
  | cons y rest ih =>
    have hy : y ≠ x := fun hxy => h (hxy ▸ List.mem_cons_self _ _)
    have hx : x ∉ rest := fun hr => h (List.mem_cons_of_mem _ hr)
    simp [firstPos, hy, ih hx]

/-- In a duplicate-free order respecting the connections, the source of a
connection sits strictly before the target. -/
theorem edge_firstPos_lt {ord : List V} (hnd : ord.Nodup) {a b : V}
    (hin : b ∈ ord)
    (hresp : ∀ l₁ l₂ : List V, ord = l₁ ++ b :: l₂ → a ∈ l₁) :
    firstPos a ord < firstPos b ord := by
  obtain ⟨l₁, l₂, hsplit⟩ := List.append_of_mem hin
  have h1 : a ∈ l₁ := hresp l₁ l₂ hsplit
  have hnotin : b ∉ l₁ := by
    rw [hsplit] at hnd
    obtain ⟨_, _, hd⟩ := List.nodup_append.1 hnd
    exact fun hc => hd hc (List.mem_cons_self _ _)
  rw [hsplit]
  have ha := firstPos_append_left (b :: l₂) h1
  have hb := firstPos_split l₂ hnotin
  omega

/-- A complete duplicate-free order respecting every connection certifies
acyclicity of the connection graph. -/
theorem acyclic_of_order {edges : List (V × V)} {ord : List V}
    (hnd : ord.Nodup) (hcompl : ∀ e ∈ edges, e.2 ∈ ord)
    (hresp : ∀ e ∈ edges, ∀ l₁ l₂ : List V, ord = l₁ ++ e.2 :: l₂ → e.1 ∈ l₁) :
    Acyclic edges := by
  have hedge : ∀ p q : V, edgeStep edges p q → firstPos p ord < firstPos q ord := by
    intro p q hpq
    have hin : q ∈ ord := hcompl (p, q) hpq
    have hre : ∀ l₁ l₂ : List V, ord = l₁ ++ q :: l₂ → p ∈ l₁ := hresp (p, q) hpq
    exact edge_firstPos_lt hnd hin hre
  have hlt : ∀ a b : V, Relation.TransGen (edgeStep edges) a b →
      firstPos a ord < firstPos b ord := by
    intro a b h
    induction h with
    | single h => exact hedge _ _ h
    | tail h1 h2 ih =>
      have := hedge _ _ h2
      omega
  intro v hv
  have := hlt v v hv
  omega

/-- Full correctness of the canvas topological sort on nonempty acyclic
graphs without parallel connections: it succeeds, the order is a permutation
of the components, and every connection source precedes its target. -/
theorem canvas_order_correct {nodes : List V} {edges : List (V × V)}
    (hnd : nodes.Nodup) (hsrc : ∀ e ∈ edges, e.1 ∈ nodes)
    (htgt : ∀ e ∈ edges, e.2 ∈ nodes)
    (hNoPar : ∀ v : V, (dependents edges v).Nodup)
    (hacyc : Acyclic edges) (hne : nodes ≠ []) :
    ∃ ord : List V, canvasGetExecutionOrder nodes edges = .ok ord ∧
      ord.Perm nodes ∧
      (∀ e ∈ edges, ∀ l₁ l₂ : List V, ord = l₁ ++ e.2 :: l₂ → e.1 ∈ l₁) := by
  have S := ksetup_dependents hnd hsrc htgt
  have hdedup : (fun v : V => (dependents edges v).dedup) = dependents edges :=
    funext fun v => List.dedup_eq_self.2 (hNoPar v)
  have hqne : (initQueue nodes edges).isEmpty = false := by
    rcases h : (initQueue nodes edges).isEmpty with h | h
    · rfl
    · exfalso
      have hq0 : initQueue nodes edges = [] := by
        cases hq : initQueue nodes edges with
        | nil => rfl
        | cons a t => rw [hq] at h; simp [List.isEmpty] at h
      have I₀ := kahnInit S
      rw [hq0] at I₀
      have hcompl := kahn_complete hnd hsrc htgt hacyc I₀
      cases hn : nodes with
      | nil => exact hne hn
      | cons a t =>
        have := hcompl a (by rw [hn]; simp)
        cases this
  obtain ⟨degF, I, hleft⟩ :=
    kahnLoop_spec S nodes.length _ (initQueue nodes edges) [] (kahnInit S) (by simp)
  have hcompl := kahn_complete hnd hsrc htgt hacyc I
  have hordnd : (kahnLoop (dependents edges) nodes.length
      (fun v => (indegN edges v : Int)) (initQueue nodes edges) []).1.Nodup := by
    have := I.nodup
    simpa using this
  have hordsub : ∀ v ∈ (kahnLoop (dependents edges) nodes.length
      (fun v => (indegN edges v : Int)) (initQueue nodes edges) []).1, v ∈ nodes := by
    intro v hv
    exact I.sub v (by simpa using hv)
  have hperm : (kahnLoop (dependents edges) nodes.length
      (fun v => (indegN edges v : Int)) (initQueue nodes edges) []).1.Perm nodes := by
    refine (List.Nodup.subperm hordnd fun v hv => hordsub v hv).antisymm
      (List.Nodup.subperm hnd fun v hv => hcompl v hv)
  refine ⟨_, ?_, hperm, I.resp⟩
  rw [canvasGetExecutionOrder, hdedup]
  simp only [hqne, Bool.false_eq_true, if_false]
  rw [if_pos hperm.length_eq]

/-- Soundness direction used for cyclic graphs: whenever the canvas
topological sort returns an order, the connection graph is acyclic. -/
theorem canvas_order_acyclic {nodes : List V} {edges : List (V × V)}
    (hnd : nodes.Nodup) (hsrc : ∀ e ∈ edges, e.1 ∈ nodes)
    (htgt : ∀ e ∈ edges, e.2 ∈ nodes) {ord : List V}
    (h : canvasGetExecutionOrder nodes edges = .ok ord) : Acyclic edges := by
  have S := ksetup_dedup hnd hsrc htgt
  rw [canvasGetExecutionOrder] at h
  by_cases hq : (initQueue nodes edges).isEmpty
  · rw [if_pos hq] at h
    cases h
  · rw [if_neg hq] at h
    obtain ⟨degF, I, hleft⟩ :=
      kahnLoop_spec S nodes.length _ (initQueue nodes edges) [] (kahnInit S) (by simp)
    by_cases hlen : (kahnLoop (fun v => (dependents edges v).dedup) nodes.length
        (fun v => (indegN edges v : Int)) (initQueue nodes edges) []).1.length
        = nodes.length
    · rw [if_pos hlen] at h
      injection h with h
      have hordnd : ord.Nodup := by rw [← h]; simpa using I.nodup
      have hordsub : ∀ v ∈ ord, v ∈ nodes := by
        rw [← h]
        exact fun v hv => I.sub v (by simpa using hv)
      have hlen₂ : ord.length = nodes.length := by rw [← h]; exact hlen
      have hperm : ord.Perm nodes :=
        (List.Nodup.subperm hordnd fun v hv => hordsub v hv).perm_of_length_le
          (le_of_eq hlen₂.symm)
      refine acyclic_of_order hordnd ?_ ?_
      · intro e he
        exact hperm.mem_iff.2 (htgt e he)
      · rw [← h]
        exact I.resp
    · rw [if_neg hlen] at h
      cases h

/-- Behaviour of the backend sort on the empty graph: the only case in which
it returns successfully. -/
theorem backendTopologicalSort_nil (edges : List (V × V)) :
    backendTopologicalSort ([] : List V) edges = .ok [] := rfl

/-- Behaviour of the backend sort on every nonempty graph: the unawaited
asyncio queue stays empty, so the length check fails and a cycle error is
raised regardless of the shape of the graph. -/
theorem backendTopologicalSort_nonempty {nodes : List V} (edges : List (V × V))
    (hne : nodes ≠ []) :
    backendTopologicalSort nodes edges = .error "Workflow contains cycles" := by
  rw [backendTopologicalSort]
  have : nodes.length ≠ 0 := fun h => hne (List.length_eq_zero.1 h)
  simp only [List.length_nil]
  rw [if_neg (fun hc => this hc.symm)]

end Graph

/-- Per-port registration entry stored in the metadata ports dicts of
base_component.py: the type tag and the description. -/
structure PortMeta : Type where
  ptype : String
  pdesc : String
deriving DecidableEq

/-- Model of ComponentMetadata from base_component.py: the five string
fields (blank in the records created lazily by the port registration
helpers) and the two ports dicts, each None until the first registration of
its direction. -/
structure CompMeta : Type where
  mid : String
  mname : String
  mdescr : String
  mversion : String
  mcategory : String
  input_ports : Option (List (String × PortMeta))
  output_ports : Option (List (String × PortMeta))
deriving DecidableEq

/-- Blank metadata record ComponentMetadata with five empty strings created
by add_input_port / add_output_port when metadata is still None. -/
def blankMeta : CompMeta :=
  ⟨"", "", "", "", "", Option.none, Option.none⟩

/-- Model of a BaseComponent instance of base_component.py: the identifier,
the configuration, the two value dicts (port name to currently stored value,
None when unset), the status string, the progress percentage, the recorded
error message, the metadata, and the required input names that the abstract
subclass method get_required_inputs returns for this component. -/
structure Component : Type where
  instance_id : String
  config : List (String × PV)
  input_ports : List (String × PV)
  output_ports : List (String × PV)
  status : String
  progress : Int
  errorMsg : Option String
  metadata : Option CompMeta
  required_inputs : List String

/-- Model of BaseComponent.__init__ (together with the subclass supplied
instance id, configuration and required inputs). -/
def mkComponent (iid : String) (config : List (String × PV))
    (required : List String) : Component :=
  { instance_id := iid, config := config, input_ports := [], output_ports := [],
    status := "initialized", progress := 0, errorMsg := Option.none,
    metadata := Option.none, required_inputs := required }

/-- Model of BaseComponent.set_error: record the message and switch the
status to error (signal emission and logging are not modelled). -/
def setError (c : Component) (msg : String) : Component :=
  { c with errorMsg := some msg, status := "error" }

/-- Model of the BaseComponent.progress property setter: the stored value is
the argument clamped into [0, 100] by max(0, min(100, value)). -/
def setProgress (c : Component) (value : Int) : Component :=
  { c with progress := max 0 (min 100 value) }

/-- Model of BaseComponent.add_input_port: a blank metadata record is
created when absent, the input ports dict is created when absent (or falsy),
the named entry is overwritten in place or appended, and the bound value of
the port is reset to None. The method has no failure path: no exception is
raised and no error status is set, so a duplicate registration silently
replaces the previous port of the same name. -/
def addInputPort (c : Component) (name ptype pdesc : String) : Component :=
  let m := c.metadata.getD blankMeta
  let ip := m.input_ports.getD []
  { c with
    metadata := some { m with input_ports := some (dset ip name ⟨ptype, pdesc⟩) },
    input_ports := dset c.input_ports name PV.none }

/-- Model of BaseComponent.add_output_port, symmetric to addInputPort. -/
def addOutputPort (c : Component) (name ptype pdesc : String) : Component :=
  let m := c.metadata.getD blankMeta
  let op := m.output_ports.getD []
  { c with
    metadata := some { m with output_ports := some (dset op name ⟨ptype, pdesc⟩) },
    output_ports := dset c.output_ports name PV.none }

/-- Model of BaseComponent.set_input. The membership test on
self.metadata.input_ports raises AttributeError when metadata is still None
and TypeError when the input ports dict was never created; otherwise a name
that is not a declared input port records an error status and returns
False with the bound inputs untouched, and a declared name stores the value
(of any type, without a type check) and returns True. -/
def setInput (c : Component) (port_name : String) (value : PV) :
    Except PyErr (Bool × Component) :=
  match c.metadata with
  | Option.none =>
    .error (.attributeError "NoneType object has no attribute input_ports")
  | some m =>
    match m.input_ports with
    | Option.none => .error (.typeError "argument of type NoneType is not iterable")
    | some ip =>
      match dlookup ip port_name with
      | Option.none => .ok (false, setError c ("Invalid input port: " ++ port_name))
      | some _ =>
        .ok (true, { c with input_ports := dset c.input_ports port_name value })

/-- Model of BaseComponent.get_output: dict.get returns the stored value or
None, so an undeclared port and a port holding None are indistinguishable
and the method never raises. -/
def getOutput (c : Component) (port_name : String) : PV :=
  (dlookup c.output_ports port_name).getD PV.none

/-- Model of BaseComponent.has_output: the name is a key of the output value
dict and the stored value is not None. -/
def hasOutput (c : Component) (port_name : String) : Bool :=
  match dlookup c.output_ports port_name with
  | some PV.none => false
  | some _ => true
  | Option.none => false

/-- First required input that is missing from the input value dict (flag
true) or bound to None (flag false), in order of the required inputs
list. -/
def firstInvalidRequired (req : List String) (ips : List (String × PV)) :
    Option (String × Bool) :=
  match req with
  | [] => Option.none
  | p :: rest =>
    match dlookup ips p with
    | Option.none => some (p, true)
    | some PV.none => some (p, false)
    | some _ => firstInvalidRequired rest ips

/-- Model of BaseComponent.validate_inputs: walk the required inputs in
order; a missing or None-bound port raises a ValueError that the method
itself catches, recording an error status and returning False; otherwise
the inputs validate and the component is untouched. -/
def validateInputs (c : Component) : Bool × Component :=
  match firstInvalidRequired c.required_inputs c.input_ports with
  | Option.none => (true, c)
  | some (p, true) =>
    (false, setError c ("Input validation failed: Required input port missing: " ++ p))
  | some (p, false) =>
    (false,
      setError c ("Input validation failed: Required input port not connected: " ++ p))

/-- Model of BaseComponent.cleanup: clear both value dicts and set the
status to cleaned. -/
def cleanup (c : Component) : Component :=
  { c with input_ports := [], output_ports := [], status := "cleaned" }

/-- Model of BaseComponent.reset: rebuild the value dicts from the declared
metadata ports with every value None, reset progress and error, and return
to the initialized status. On a component without metadata or without a
ports dict the comprehension raises; the partial reassignment of
input_ports that Python performs before a failure of the output
comprehension is not modelled (no modelled observation depends on it). -/
def resetComp (c : Component) : Except PyErr Component :=
  match c.metadata with
  | Option.none =>
    .error (.attributeError "NoneType object has no attribute input_ports")
  | some m =>
    match m.input_ports with
    | Option.none => .error (.typeError "argument of type NoneType is not iterable")
    | some ip =>
      match m.output_ports with
      | Option.none => .error (.typeError "argument of type NoneType is not iterable")
      | some op =>
        .ok { c with
          input_ports := ip.map (fun kv => (kv.1, PV.none)),
          output_ports := op.map (fun kv => (kv.1, PV.none)),
          progress := 0, errorMsg := Option.none, status := "initialized" }

/-- Operations a client can perform on a component through the interface of
base_component.py, used to state state-machine invariants over arbitrary
call sequences. -/
inductive CompOp : Type where
  | opSetProgress (value : Int)
  | opSetStatus (s : String)
  | opSetError (msg : String)
  | opAddInputPort (name ptype pdesc : String)
  | opAddOutputPort (name ptype pdesc : String)
  | opSetInput (port : String) (value : PV)
  | opValidateInputs
  | opReset
  | opCleanup

/-- Application of one interface operation; operations that can raise leave
the component in its pre-state when they do (none of the raising paths
mutates first, up to the reset corner documented at resetComp). -/
def applyOp (c : Component) : CompOp → Component
  | .opSetProgress v => setProgress c v
  | .opSetStatus s => { c with status := s }
  | .opSetError m => setError c m
  | .opAddInputPort n t d => addInputPort c n t d
  | .opAddOutputPort n t d => addOutputPort c n t d
  | .opSetInput p v =>
    match setInput c p v with
    | .ok pr => pr.2
    | .error _ => c
  | .opValidateInputs => (validateInputs c).2
  | .opReset =>
    match resetComp c with
    | .ok c₁ => c₁
    | .error _ => c
  | .opCleanup => cleanup c

/-- Abstract process capability handed to the engine: the modelled
process() of the component with the given instance id maps the component
state at call time to its post-state together with the returned value or
the raised exception (process is abstract in BaseComponent). -/
def ProcessFn : Type := String → Component → Component × Except PyErr PV

/-- Dependencies of a component: sources of the connections targeting it, in
connection order, as collected by _build_execution_graph. -/
def dependencies (connections : List (String × String)) (cid : String) :
    List String :=
  (connections.filter (fun e => decide (e.2 = cid))).map Prod.fst

/-- Failure behaviour of WorkflowEngine._build_execution_graph: the graph
dict is keyed by the components, and registering a connection indexes
graph[source] and then graph[target], raising KeyError on the first
connection with an endpoint that is not among the components. -/
def buildGraphErr (ids : List String) : List (String × String) → Option PyErr
  | [] => Option.none
  | (s, t) :: rest =>
    if s ∈ ids then
      if t ∈ ids then buildGraphErr ids rest else some (.keyError t)
    else some (.keyError s)

/-- Inner loop of WorkflowEngine._gather_inputs over the input ports of the
component: the first input port whose stored value has a type entry equal
to the type entry of the declared output of the dependency is selected;
subscripting the stored value (None for unset ports) or the missing output
entry raises. -/
def gatherMatch (depComp : Component) (out_name : String) :
    List (String × PV) → Except PyErr (Option String)
  | [] => .ok Option.none
  | (in_name, in_port) :: rest => do
    let a ← in_port.subscript "type"
    let b₀ ← match dlookup depComp.output_ports out_name with
      | some v => Except.ok v
      | Option.none => Except.error (PyErr.keyError out_name)
    let b ← b₀.subscript "type"
    if PV.beq a b then pure (some in_name)
    else gatherMatch depComp out_name rest

/-- Middle loop of WorkflowEngine._gather_inputs over the items of the
result dict of one dependency. -/
def gatherOuts (comp depComp : Component) :
    List (String × PV) → List (String × PV) → Except PyErr (List (String × PV))
  | [], inputs => .ok inputs
  | (out_name, out_value) :: rest, inputs => do
    let m ← gatherMatch depComp out_name comp.input_ports
    match m with
    | some in_name => gatherOuts comp depComp rest (dset inputs in_name out_value)
    | Option.none => gatherOuts comp depComp rest inputs

/-- Outer loop of WorkflowEngine._gather_inputs over the dependencies of the
component: read the stored result of each dependency and iterate its items
(raising AttributeError when a process returned a non-dict). The Python code
reaches the dependency through an object reference; the model reaches it
through its id in the components dict and turns the (unreachable for
well-formed graphs) missing case into the KeyError of the results read. -/
def gatherDeps (comps : List (String × Component)) (comp : Component)
    (results : List (String × PV)) :
    List String → List (String × PV) → Except PyErr (List (String × PV))
  | [], inputs => .ok inputs
  | d :: rest, inputs => do
    let dep_result ← match dlookup results d with
      | some r => Except.ok r
      | Option.none => Except.error (PyErr.keyError d)
    let items ← dep_result.items
    let depComp ← match dlookup comps d with
      | some dc => Except.ok dc
      | Option.none => Except.error (PyErr.keyError d)
    let inputs₁ ← gatherOuts comp depComp items inputs
    gatherDeps comps comp results rest inputs₁

/-- One iteration of the execute loop of WorkflowEngine.execute for the
component with the given id: gather the inputs, write them into the input
ports dict, call process, and record either its returned value or the error
record for the raised exception. The iteration itself never raises: the per
component try/except converts any exception into the error record and the
loop continues. -/
def executeStep (connections : List (String × String)) (pf : ProcessFn)
    (st : List (String × Component) × List (String × PV)) (cid : String) :
    List (String × Component) × List (String × PV) :=
  match dlookup st.1 cid with
  | Option.none => (st.1, dset st.2 cid (pyErrorDict (.keyError cid)))
  | some comp =>
    match gatherDeps st.1 comp st.2 (dependencies connections cid) [] with
    | .error e => (st.1, dset st.2 cid (pyErrorDict e))
    | .ok inputs =>
      let comp₁ := { comp with
        input_ports := inputs.foldl (fun d kv => dset d kv.1 kv.2) comp.input_ports }
      let pr := pf cid comp₁
      let comps₂ := dset st.1 cid pr.1
      match pr.2 with
      | .ok r => (comps₂, dset st.2 cid r)
      | .error e => (comps₂, dset st.2 cid (pyErrorDict e))

/-- Model of WorkflowEngine.execute: build the execution graph (a KeyError
for a dangling connection is re-raised by the outer handler), topologically
sort (the asyncio-broken sort raises its cycle ValueError for every
nonempty graph, which the outer handler re-raises), and otherwise run every
ordered component through the per-component try/except, returning the
accumulated results dict. -/
def backendExecute (components : List (String × Component))
    (connections : List (String × String)) (pf : ProcessFn) :
    Except PyErr (List (String × PV)) :=
  match buildGraphErr (components.map Prod.fst) connections with
  | some e => .error e
  | Option.none =>
    match backendTopologicalSort (components.map Prod.fst) connections with
    | .error msg => .error (.valueError msg)
    | .ok order =>
      .ok ((order.foldl (executeStep connections pf) (components, [])).2)

/-- Model of the visual Port objects of frontend base.py as far as
can_connect inspects them: an object identity, name, type tag, direction
flag and parent component (None for an orphaned port). Object equality of
ports is modelled by structural equality; the identity field keeps distinct
port objects with equal attributes distinguishable. -/
structure UIPort : Type where
  pid : Nat
  name : String
  port_type : String
  is_output : Bool
  parent : Option Nat
deriving DecidableEq

/-- Model of a ConnectionLine as far as can_connect inspects it: its end
port, None while the connection is still being dragged (such incomplete
connections never block an input port). -/
structure UIConn : Type where
  start_port : UIPort
  end_port : Option UIPort
deriving DecidableEq

/-- The input half of a candidate port pair, as selected by can_connect:
port2 when it is not an output, port1 otherwise. -/
def inputPortOf (port1 port2 : UIPort) : UIPort :=
  if port2.is_output = false then port2 else port1

/-- Model of WorkflowCanvas.can_connect: reject two ports of the same
direction, ports of one and the same (or of a missing) parent component, a
second incoming connection into the input port of the pair, and two
distinct non-any data types; accept otherwise. The boolean tests of the
source use Python ==, modelled by decidable equality. -/
def canConnect (connections : List UIConn) (port1 port2 : UIPort) : Bool :=
  if port1.is_output = port2.is_output then false
  else
    match port1.parent, port2.parent with
    | Option.none, _ => false
    | _, Option.none => false
    | some p1, some p2 =>
      if p1 = p2 then false
      else
        if connections.any
            (fun k => decide (k.end_port = some (inputPortOf port1 port2))) then
          false
        else
          decide (port1.port_type = port2.port_type ∨
            port1.port_type = "any" ∨ port2.port_type = "any")

/-- Execution-level model of a canvas component: the id under which the
canvas stores it, the title, the required input port names
(WorkflowComponent.get_required_inputs returns all declared input names),
and the subclass behaviours execute(inputs) and get_outputs(). No class of
the repository defines get_outputs, so on the shipped component classes the
latter always raises AttributeError; the model keeps both behaviours
abstract. -/
structure CanvasNode : Type where
  id : String
  title : String
  required_inputs : List String
  execFn : List (String × PV) → Except PyErr PV
  outsFn : Except PyErr (List (String × PV))

/-- Canvas connection at execution granularity: parent component ids and
port names of its two ports. -/
structure CanvasConn : Type where
  startId : String
  startPort : String
  endId : String
  endPort : String
deriving DecidableEq

/-- Canvas graph: the components in insertion order of the components dict
and the connections. -/
structure CanvasGraph : Type where
  comps : List CanvasNode
  conns : List CanvasConn

/-- Sequential walk over the successor list inside the recursive visit of
_has_cycles; a found cycle short-circuits, otherwise the visited set is
threaded on. -/
def goTargets (rec : String → List String → List String → Bool × List String) :
    List String → List String → List String → Bool × List String
  | [], visited, _ => (false, visited)
  | t :: rest, visited, path =>
    let r := rec t visited path
    if r.1 then (true, r.2) else goTargets rec rest r.2 path

/-- Fuel-bounded model of the recursive visit closure of
WorkflowCanvas._has_cycles: a component on the current path signals a
cycle, a previously visited component is skipped, and otherwise the
component is marked visited, kept on the path for the recursive calls on
its successors, and removed again on exit (the path argument is passed
functionally). The fuel bounds the recursion depth, which never exceeds the
number of unvisited components plus one, so component count plus one always
suffices; the fuel-zero answer is never reached from hasCycles. -/
def visitDFS (conns : List CanvasConn) : Nat → String → List String →
    List String → Bool × List String
  | 0 => fun _ visited _ => (false, visited)
  | fuel + 1 => fun c visited path =>
    if c ∈ path then (true, visited)
    else if c ∈ visited then (false, visited)
    else
      goTargets (visitDFS conns fuel)
        ((conns.filter (fun k => decide (k.startId = c))).map CanvasConn.endId)
        (visited ++ [c]) (path ++ [c])

/-- Top-level loop of WorkflowCanvas._has_cycles over all components,
threading the visited set. -/
def hasCyclesLoop (conns : List CanvasConn) (fuel : Nat) :
    List String → List String → Bool
  | [], _ => false
  | c :: rest, visited =>
    let r := visitDFS conns fuel c visited []
    if r.1 then true else hasCyclesLoop conns fuel rest r.2

/-- Model of WorkflowCanvas._has_cycles. -/
def hasCycles (g : CanvasGraph) : Bool :=
  hasCyclesLoop g.conns (g.comps.length + 1) (g.comps.map CanvasNode.id) []

/-- Model of WorkflowCanvas.validate_workflow: one issue per component per
required input port without an incoming connection, plus a cycle issue when
the DFS reports one. -/
def canvasValidateWorkflow (g : CanvasGraph) : List String :=
  (g.comps.map (fun c =>
    (c.required_inputs.filter (fun p =>
      !(g.conns.any (fun k =>
        decide (k.endId = c.id) && decide (k.endPort = p))))).map
      (fun p => c.title ++ ": Required input " ++ p ++ " not connected"))).join
  ++ (if hasCycles g then ["Workflow contains cycles"] else [])

/-- Model of WorkflowCanvas._get_component_inputs: walk the connections; for
every connection ending at the component, call get_outputs() on the source
component (a raise propagates to the caller) and bind the value of the
start port, when present, under the end port name. -/
def canvasGetInputs (g : CanvasGraph) (comp : CanvasNode) :
    List CanvasConn → List (String × PV) → Except PyErr (List (String × PV))
  | [], inputs => .ok inputs
  | k :: rest, inputs =>
    if k.endId = comp.id then
      match g.comps.find? (fun c => decide (c.id = k.startId)) with
      | Option.none =>
        .error (.attributeError "NoneType object has no attribute get_outputs")
      | some src =>
        match src.outsFn with
        | .error e => .error e
        | .ok outs =>
          match dlookup outs k.startPort with
          | some v => canvasGetInputs g comp rest (dset inputs k.endPort v)
          | Option.none => canvasGetInputs g comp rest inputs
    else canvasGetInputs g comp rest inputs

/-- Model of WorkflowCanvas._execute_component: gather the inputs and call
execute; any exception becomes the error record. -/
def canvasExecuteComponent (g : CanvasGraph) (comp : CanvasNode) : PV :=
  match canvasGetInputs g comp g.conns [] with
  | .error e => pyErrorDict e
  | .ok inputs =>
    match comp.execFn inputs with
    | .error e => pyErrorDict e
    | .ok v => v

/-- Loop of WorkflowCanvas.execute_workflow over the ordered components,
additionally recording which components were executed: a result whose
status entry is the string error raises a RuntimeError (and reading status
of a non-dict result raises AttributeError) that the outer handler converts
into an empty results dict, aborting the rest of the run. -/
def canvasRunLoop (g : CanvasGraph) :
    List String → List (String × PV) → List String →
    List (String × PV) × List String
  | [], results, executed => (results, executed)
  | cid :: rest, results, executed =>
    match g.comps.find? (fun c => decide (c.id = cid)) with
    | Option.none => ([], executed)
    | some comp =>
      let r := canvasExecuteComponent g comp
      let executed₁ := executed ++ [cid]
      match r with
      | PV.dict kvs =>
        if PV.beq ((dlookup kvs "status").getD PV.none) (PV.str "error") then
          ([], executed₁)
        else canvasRunLoop g rest (dset results cid r) executed₁
      | _ => ([], executed₁)

/-- Model of WorkflowCanvas.execute_workflow: validation issues short
circuit into an empty results dict without executing anything, the
RuntimeError of the order computation is caught into an empty results dict,
and otherwise the components run in order with the first error result
aborting the run (results gathered so far are discarded). The second
returned list records the components whose execute was invoked. -/
def canvasExecuteWorkflow (g : CanvasGraph) :
    List (String × PV) × List String :=
  if (canvasValidateWorkflow g).isEmpty then
    match canvasGetExecutionOrder (g.comps.map CanvasNode.id)
        (g.conns.map (fun k => (k.startId, k.endId))) with
    | .error _ => ([], [])
    | .ok order => canvasRunLoop g order [] []
  else ([], [])

/-- Visual port of a frontend component as read by the persistence code:
name, type tag and direction. -/
structure SPort : Type where
  name : String
  ptype : String
  is_output : Bool
deriving DecidableEq

/-- Visual component of the canvas for the persistence model: the uuid
generated at construction, the class name, position, properties, and the
declared ports. -/
structure VComp : Type where
  id : String
  ctype : String
  posx : Int
  posy : Int
  properties : List (String × PV)
  input_ports : List (String × SPort)
  output_ports : List (String × SPort)

/-- Canvas connection for the persistence model, carrying the parent ids
and the names of its two ports (save_state reads exactly these four
attributes of a complete connection). -/
structure VConn : Type where
  startCompId : String
  startName : String
  endCompId : String
  endName : String
deriving DecidableEq

/-- State of the canvas relevant to save_state / restore_state: the
components dict (keyed by component id) and the connection set. -/
structure VCanvas : Type where
  components : List (String × VComp)
  connections : List VConn

/-- Saved component entry of save_state: type, position and properties. The
component id is only the key of the saved components dict; it is not stored
inside the entry and restore_state never feeds it back into the recreated
component (load_state, which would, is not called). -/
structure SavedComp : Type where
  ctype : String
  posx : Int
  posy : Int
  properties : List (String × PV)

/-- Saved connection entry of save_state: old parent component ids plus
port names of the two ports. -/
structure SavedConn : Type where
  startComp : String
  startName : String
  endComp : String
  endName : String
deriving DecidableEq

/-- Workflow document produced by save_state. -/
structure SavedState : Type where
  components : List (String × SavedComp)
  connections : List SavedConn

/-- Model of WorkflowCanvas.save_state (complete connections only; the
model carries complete connections exclusively). -/
def saveState (cv : VCanvas) : SavedState :=
  { components := cv.components.map (fun kv =>
      (kv.1, ⟨kv.2.ctype, kv.2.posx, kv.2.posy, kv.2.properties⟩)),
    connections := cv.connections.map (fun k =>
      ⟨k.startCompId, k.startName, k.endCompId, k.endName⟩) }

/-- Fresh uuid4 modelled as a counter-indexed string: distinct counter
values give distinct ids, matching the freshness of uuid4. -/
def freshId (n : Nat) : String := "uuid-" ++ toString n

/-- Model of WorkflowCanvas.create_component: each of the three known class
names constructs a fresh component carrying a fresh uuid and the ports that
the frontend class constructor declares (FileComponent: output port named
output of type data; GraphComponent: input port named input of type data;
CNNComponent: input input/data, outputs output/data and metrics/metrics);
an unknown type gives None. -/
def createComponent (ctype : String) (n : Nat) : Option VComp :=
  if ctype = "FileComponent" then
    some { id := freshId n, ctype := ctype, posx := 0, posy := 0,
           properties := [], input_ports := [],
           output_ports := [("output", ⟨"output", "data", true⟩)] }
  else if ctype = "GraphComponent" then
    some { id := freshId n, ctype := ctype, posx := 0, posy := 0,
           properties := [], input_ports := [("input", ⟨"input", "data", false⟩)],
           output_ports := [] }
  else if ctype = "CNNComponent" then
    some { id := freshId n, ctype := ctype, posx := 0, posy := 0,
           properties := [], input_ports := [("input", ⟨"input", "data", false⟩)],
           output_ports := [("output", ⟨"output", "data", true⟩),
                            ("metrics", ⟨"metrics", "metrics", true⟩)] }
  else Option.none

/-- Model of WorkflowCanvas.restore_connection: look both components up in
the current components dict under the ids recorded in the saved document,
find the named ports on them, and silently skip the connection when any
lookup fails. -/
def restoreConnection (cv : VCanvas) (k : SavedConn) : VCanvas :=
  match dlookup cv.components k.startComp, dlookup cv.components k.endComp with
  | some sc, some ec =>
    match (sc.output_ports.map Prod.snd).find? (fun p => decide (p.name = k.startName)),
        (ec.input_ports.map Prod.snd).find? (fun p => decide (p.name = k.endName)) with
    | some _, some _ =>
      { cv with connections := cv.connections ++
          [⟨k.startComp, k.startName, k.endComp, k.endName⟩] }
    | _, _ => cv
  | _, _ => cv

/-- Model of WorkflowCanvas.restore_state: clear the canvas, recreate every
saved component through create_component from its saved type alone (the
recreated component carries a fresh uuid; the saved id is only the dict key
and is never written back), apply position and properties, store the
component in the components dict under its new id, and then replay the
saved connections through restore_connection. The uuid counter starts at
the given value and advances on every successful construction. -/
def restoreState (doc : SavedState) (n : Nat) : VCanvas :=
  let afterComps := doc.components.foldl
    (fun (st : VCanvas × Nat) kv =>
      match createComponent kv.2.ctype st.2 with
      | some comp =>
        let comp₁ := { comp with
          posx := kv.2.posx
          posy := kv.2.posy
          properties := kv.2.properties }
        ({ st.1 with components := dset st.1.components comp₁.id comp₁ }, st.2 + 1)
      | Option.none => (st.1, st.2))
    (⟨[], []⟩, n)
  doc.connections.foldl restoreConnection afterComps.1

/-- Lookup after assignment of the same key. -/
theorem dlookup_dset_self {α : Type} (kvs : List (String × α)) (k : String) (v : α) :
    dlookup (dset kvs k v) k = some v := by
  induction kvs with
  | nil => simp [dset, dlookup]
  | cons kv rest ih =>
    by_cases h : kv.1 = k
    · simp [dset, dlookup, h]
    · cases kv
      simp_all [dset, dlookup, h]

/-- Lookup after assignment of a different key. -/
theorem dlookup_dset_ne {α : Type} (kvs : List (String × α)) {k q : String}
    (v : α) (h : q ≠ k) :
    dlookup (dset kvs k v) q = dlookup kvs q := by
  have hk : k ≠ q := Ne.symm h
  induction kvs with
  | nil => simp [dset, dlookup, hk]
  | cons kv rest ih =>
    obtain ⟨k₁, v₁⟩ := kv
    by_cases h₁ : k₁ = k
    · subst h₁
      simp [dset, dlookup, hk]
    · by_cases h₂ : k₁ = q
      · simp [dset, dlookup, h₁, h₂, h]
      · simp [dset, dlookup, h₁, h₂, ih]

/-- Occurrence counts are invariant under permutation. -/
theorem countOcc_perm {l₁ l₂ : List V} [DecidableEq V] (h : l₁.Perm l₂) (w : V) :
    countOcc w l₁ = countOcc w l₂ := by
  induction h with
  | nil => rfl
  | cons x _ ih => simp [countOcc, ih]
  | swap x y l => simp only [countOcc]; omega
  | trans _ _ ih₁ ih₂ => omega

/-- Members of a duplicate-free list occur exactly once. -/
theorem countOcc_eq_one_of_nodup {V : Type} [DecidableEq V] {l : List V}
    (h : l.Nodup) {c : V} (hc : c ∈ l) : countOcc c l = 1 := by
  induction l with
  | nil => cases hc
  | cons x rest ih =>
    obtain ⟨hx, hrest⟩ := List.nodup_cons.1 h
    rcases List.mem_cons.1 hc with h₁ | h₁
    · subst h₁
      have h0 : countOcc c rest = 0 := countOcc_eq_zero_of_not_mem hx
      simp [countOcc, h0]
    · have hxc : x ≠ c := fun he => hx (he ▸ h₁)
      simp [countOcc, hxc, ih hrest h₁]

/-- A required input that is missing or bound to None makes
firstInvalidRequired report an invalid port. -/
theorem firstInvalid_of_bad {req : List String} {ips : List (String × PV)}
    {p : String} (hp : p ∈ req)
    (hv : dlookup ips p = Option.none ∨ dlookup ips p = some PV.none) :
    firstInvalidRequired req ips ≠ Option.none := by
  induction req with
  | nil => cases hp
  | cons r rest ih =>
    by_cases hr : r = p
    · subst hr
      rcases hv with hv | hv <;> simp [firstInvalidRequired, hv]
    · have hp₁ : p ∈ rest := by
        rcases List.mem_cons.1 hp with h | h
        · exact absurd h.symm hr
        · exact h
      cases hl : dlookup ips r with
      | none => simp [firstInvalidRequired, hl]
      | some v =>
        cases v with
        | none => simp [firstInvalidRequired, hl]
        | str s => simpa [firstInvalidRequired, hl] using ih hp₁
        | int n => simpa [firstInvalidRequired, hl] using ih hp₁
        | dict kvs => simpa [firstInvalidRequired, hl] using ih hp₁

/-- validate_inputs fails on a component one of whose required inputs is
missing or bound to None. -/
theorem validateInputs_false_of_bad {c : Component} {p : String}
    (hp : p ∈ c.required_inputs)
    (hv : dlookup c.input_ports p = Option.none ∨
      dlookup c.input_ports p = some PV.none) :
    (validateInputs c).1 = false ∧ (validateInputs c).2.status = "error" := by
  have h := firstInvalid_of_bad hp hv
  rw [validateInputs]
  cases hfi : firstInvalidRequired c.required_inputs c.input_ports with
  | none => exact absurd hfi h
  | some pr =>
    cases pr with
    | mk q b => cases b <;> simp [setError]

/-- setInput never changes the progress of the component it returns. -/
theorem setInput_progress {c : Component} {p : String} {v : PV}
    {r : Bool × Component} (h : setInput c p v = .ok r) :
    r.2.progress = c.progress := by
  rw [setInput] at h
  split at h
  · cases h
  · split at h
    · cases h
    · split at h
      · cases h
        rfl
      · cases h
        rfl

/-- validate_inputs never changes the progress of the component it
returns. -/
theorem validateInputs_progress (c : Component) :
    (validateInputs c).2.progress = c.progress := by
  rw [validateInputs]
  cases hfi : firstInvalidRequired c.required_inputs c.input_ports with
  | none => rfl
  | some pr =>
    cases pr with
    | mk q b => cases b <;> rfl

/-- resetComp returns a component with progress zero. -/
theorem resetComp_progress {c c₁ : Component} (h : resetComp c = .ok c₁) :
    c₁.progress = 0 := by
  rw [resetComp] at h
  split at h
  · cases h
  · split at h
    · cases h
    · split at h
      · cases h
      · cases h
        rfl

/-- Every interface operation keeps the progress inside [0, 100] when it
was inside [0, 100] before. -/
theorem applyOp_progress_bounds {c : Component} (h0 : 0 ≤ c.progress)
    (h1 : c.progress ≤ 100) (op : CompOp) :
    0 ≤ (applyOp c op).progress ∧ (applyOp c op).progress ≤ 100 := by
  cases op with
  | opSetProgress v =>
    simp only [applyOp, setProgress]
    omega
  | opSetStatus s => exact ⟨h0, h1⟩
  | opSetError m => exact ⟨h0, h1⟩
  | opAddInputPort n t d => exact ⟨h0, h1⟩
  | opAddOutputPort n t d => exact ⟨h0, h1⟩
  | opSetInput p v =>
    simp only [applyOp]
    cases hs : setInput c p v with
    | error e => exact ⟨h0, h1⟩
    | ok r =>
      show 0 ≤ r.2.progress ∧ r.2.progress ≤ 100
      have := setInput_progress hs
      omega
  | opValidateInputs =>
    simp only [applyOp]
    have := validateInputs_progress c
    omega
  | opReset =>
    simp only [applyOp]
    cases hs : resetComp c with
    | error e => exact ⟨h0, h1⟩
    | ok c₁ =>
      show 0 ≤ c₁.progress ∧ c₁.progress ≤ 100
      have := resetComp_progress hs
      omega
  | opCleanup => exact ⟨h0, h1⟩

/-- Progress stays inside [0, 100] along any sequence of interface
operations. -/
theorem foldl_applyOp_progress_bounds :
    ∀ (ops : List CompOp) (c : Component), 0 ≤ c.progress → c.progress ≤ 100 →
      0 ≤ (ops.foldl applyOp c).progress ∧ (ops.foldl applyOp c).progress ≤ 100 := by
  intro ops
  induction ops with
  | nil => intro c h0 h1; exact ⟨h0, h1⟩
  | cons op rest ih =>
    intro c h0 h1
    have h := applyOp_progress_bounds h0 h1 op
    exact ih (applyOp c op) h.1 h.2

/-- Behaviour of the backend engine on every nonempty graph whose
connections reference existing components: the asyncio-broken topological
sort reports a cycle regardless of the shape of the graph, execute
re-raises the ValueError, and no component is processed (the result does
not depend on the process functions). -/
theorem backendExecute_nonempty_raises
    (components : List (String × Component)) (connections : List (String × String))
    (pf : ProcessFn) (hne : components ≠ [])
    (hb : buildGraphErr (components.map Prod.fst) connections = Option.none) :
    backendExecute components connections pf =
      .error (.valueError "Workflow contains cycles") := by
  rw [backendExecute, hb]
  have hmne : components.map Prod.fst ≠ [] := by
    intro h
    exact hne (List.map_eq_nil.1 h)
  rw [backendTopologicalSort_nonempty connections hmne]

/-- Behaviour of the canvas run on a cyclic well-formed graph: either
validation already reports an issue, or the order computation raises the
circular-dependency RuntimeError; in both cases the handler returns the
empty results dict and nothing is executed. -/
theorem canvasExecuteWorkflow_cyclic (g : CanvasGraph)
    (hnd : (g.comps.map CanvasNode.id).Nodup)
    (hwf : ∀ k ∈ g.conns, k.startId ∈ g.comps.map CanvasNode.id ∧
      k.endId ∈ g.comps.map CanvasNode.id)
    (hcyc : ∃ v : String, Relation.TransGen
      (edgeStep (g.conns.map (fun k => (k.startId, k.endId)))) v v) :
    canvasExecuteWorkflow g = ([], []) := by
  rw [canvasExecuteWorkflow]
  by_cases hval : (canvasValidateWorkflow g).isEmpty
  · rw [if_pos hval]
    have hsrc : ∀ e ∈ g.conns.map (fun k => (k.startId, k.endId)),
        e.1 ∈ g.comps.map CanvasNode.id := by
      intro e he
      obtain ⟨k, hk, he₁⟩ := List.mem_map.1 he
      rw [← he₁]
      exact (hwf k hk).1
    have htgt : ∀ e ∈ g.conns.map (fun k => (k.startId, k.endId)),
        e.2 ∈ g.comps.map CanvasNode.id := by
      intro e he
      obtain ⟨k, hk, he₁⟩ := List.mem_map.1 he
      rw [← he₁]
      exact (hwf k hk).2
    cases ho : canvasGetExecutionOrder (g.comps.map CanvasNode.id)
        (g.conns.map (fun k => (k.startId, k.endId))) with
    | error e => rfl
    | ok ord =>
      exfalso
      obtain ⟨v, hv⟩ := hcyc
      exact canvas_order_acyclic hnd hsrc htgt ho v hv
  · rw [if_neg hval]

/-- Whether a component result makes the canvas run raise: an error status
or a result that is not a dict. -/
def abortsOf (r : PV) : Bool :=
  match r with
  | PV.dict kvs => PV.beq ((dlookup kvs "status").getD PV.none) (PV.str "error")
  | _ => true

/-- Whether executing the component with this id yields a result that
aborts the canvas run (an id missing from the components dict also
aborts). -/
def resultAborts (g : CanvasGraph) (cid : String) : Bool :=
  match g.comps.find? (fun c => decide (c.id = cid)) with
  | Option.none => true
  | some comp => abortsOf (canvasExecuteComponent g comp)

/-- Unfolding of resultAborts at a found component. -/
theorem resultAborts_found {g : CanvasGraph} {cid : String} {comp : CanvasNode}
    (hf : g.comps.find? (fun c => decide (c.id = cid)) = some comp) :
    resultAborts g cid = abortsOf (canvasExecuteComponent g comp) := by
  rw [resultAborts, hf]

/-- The canvas run loop aborts at the first component whose result aborts:
the results accumulated so far are discarded, the aborting component is the
last one executed, and the components after it never execute. (A component
result does not depend on the results of earlier components: the canvas
reads inputs from the component objects, not from the results dict.) -/
theorem canvasRunLoop_abort (g : CanvasGraph) :
    ∀ (o₁ : List String) (cid : String) (o₂ : List String)
      (results : List (String × PV)) (executed : List String),
      (∀ c ∈ o₁, resultAborts g c = false) → resultAborts g cid = true →
      (g.comps.find? (fun c => decide (c.id = cid))).isSome →
      canvasRunLoop g (o₁ ++ cid :: o₂) results executed =
        ([], executed ++ o₁ ++ [cid]) := by
  intro o₁
  induction o₁ with
  | nil =>
    intro cid o₂ results executed _ habort hfound
    rw [List.nil_append, canvasRunLoop]
    cases hf : g.comps.find? (fun c => decide (c.id = cid)) with
    | none =>
      rw [hf] at hfound
      cases hfound
    | some comp =>
      rw [resultAborts_found hf] at habort
      cases hr : canvasExecuteComponent g comp with
      | dict kvs =>
        rw [hr] at habort
        have hb : PV.beq ((dlookup kvs "status").getD PV.none) (PV.str "error") = true := by
          simpa [abortsOf] using habort
        simp [hr, hb]
      | none => simp [hr]
      | str s => simp [hr]
      | int n => simp [hr]
  | cons c rest ih =>
    intro cid o₂ results executed hok habort hfound
    have hc := hok c (List.mem_cons_self _ _)
    rw [List.cons_append, canvasRunLoop]
    cases hf : g.comps.find? (fun k => decide (k.id = c)) with
    | none =>
      rw [resultAborts, hf] at hc
      cases hc
    | some comp =>
      rw [resultAborts_found hf] at hc
      cases hr : canvasExecuteComponent g comp with
      | dict kvs =>
        rw [hr] at hc
        have hb : PV.beq ((dlookup kvs "status").getD PV.none) (PV.str "error") = false := by
          simpa [abortsOf] using hc
        have hih := ih cid o₂ (dset results c (PV.dict kvs)) (executed ++ [c])
          (fun x hx => hok x (List.mem_cons_of_mem _ hx)) habort hfound
        simp [hr, hb, hih]
      | none =>
        rw [hr] at hc
        simp [abortsOf] at hc
      | str s =>
        rw [hr] at hc
        simp [abortsOf] at hc
      | int n =>
        rw [hr] at hc
        simp [abortsOf] at hc

/-- Concrete canvas with two components and one connection, built with the
uuid counter at 0: a FileComponent whose output port feeds the input port
of a CNNComponent. -/
def demoCanvas : VCanvas :=
  { components :=
      [("uuid-0", { id := "uuid-0", ctype := "FileComponent", posx := 10, posy := 20,
                    properties := [], input_ports := [],
                    output_ports := [("output", ⟨"output", "data", true⟩)] }),
       ("uuid-1", { id := "uuid-1", ctype := "CNNComponent", posx := 30, posy := 40,
                    properties := [], input_ports := [("input", ⟨"input", "data", false⟩)],
                    output_ports := [("output", ⟨"output", "data", true⟩),
                                     ("metrics", ⟨"metrics", "metrics", true⟩)] })],
    connections := [⟨"uuid-0", "output", "uuid-1", "input"⟩] }

end Workflow

namespace Workflow

/-- Process function for concrete runs: every process call returns an empty
dict and leaves the component unchanged. -/
def pfOk : ProcessFn := fun _ c => (c, .ok (PV.dict []))

/-- Trivial backend component named A. -/
def compA : Component := mkComponent "A" [] []

/-- Trivial backend component named B. -/
def compB : Component := mkComponent "B" [] []

/-- Canvas node for concrete runs: execute succeeds with a status dict and
get_outputs returns an empty dict. -/
def nodeOk (iid : String) : CanvasNode :=
  { id := iid, title := iid, required_inputs := [],
    execFn := fun _ => .ok (PV.dict [("status", .str "success")]),
    outsFn := .ok [] }

/-- Concrete cyclic canvas graph: two components feeding each other. -/
def cyclicCanvas : CanvasGraph :=
  { comps := [nodeOk "A", nodeOk "B"],
    conns := [⟨"A", "o", "B", "i"⟩, ⟨"B", "o", "A", "i"⟩] }

/-- Loader of the Loader-Model-Report scenario: no inputs, a successful
execute, and an output named out. -/
def loaderNode : CanvasNode :=
  { id := "loader", title := "Loader", required_inputs := [],
    execFn := fun _ => .ok (PV.dict [("status", .str "success")]),
    outsFn := .ok [("out", PV.int 1)] }

/-- Model component of the scenario: requires the data input and raises
from execute (converted to an error record by _execute_component). -/
def modelNode : CanvasNode :=
  { id := "model", title := "Model", required_inputs := ["data"],
    execFn := fun _ => .error (.valueError "Model failed"),
    outsFn := .ok [] }

/-- Report component of the scenario: requires the result input. -/
def reportNode : CanvasNode :=
  { id := "report", title := "Report", required_inputs := ["result"],
    execFn := fun _ => .ok (PV.dict [("status", .str "success")]),
    outsFn := .ok [] }

/-- Loader feeding Model feeding Report, with every required input
connected. -/
def scenarioCanvas : CanvasGraph :=
  { comps := [loaderNode, modelNode, reportNode],
    conns := [⟨"loader", "out", "model", "data"⟩,
              ⟨"model", "res", "report", "result"⟩] }

/-- C1: the claim — on every acyclic graph the topological sort returns an
order containing every component exactly once with every connection source
before its target — fails on the code: the backend _topological_sort never
enqueues anything (asyncio.Queue.put is never awaited) and raises its cycle
ValueError on every nonempty graph, acyclic or not (first conjunct), and
the canvas _get_execution_order additionally raises on acyclic graphs with
parallel connections, whose dependents sets are deduplicated while
in-degrees count every connection (third conjunct, at the concrete
two-connection pair). On nonempty acyclic graphs without parallel
connections the canvas order is correct as the claim states (second
conjunct). -/
theorem execution_order_behaviour {V : Type} [DecidableEq V]
    (nodes : List V) (edges : List (V × V)) (hnd : nodes.Nodup)
    (hwf : ∀ e ∈ edges, e.1 ∈ nodes ∧ e.2 ∈ nodes) (hacyc : Acyclic edges) :
    (nodes ≠ [] →
      backendTopologicalSort nodes edges = .error "Workflow contains cycles") ∧
    ((∀ v : V, (dependents edges v).Nodup) → nodes ≠ [] →
      ∃ ord : List V, canvasGetExecutionOrder nodes edges = .ok ord ∧
        (∀ c ∈ nodes, countOcc c ord = 1) ∧ (∀ c ∈ ord, c ∈ nodes) ∧
        (∀ e ∈ edges, ∃ l₁ l₂ : List V, ord = l₁ ++ e.2 :: l₂ ∧ e.1 ∈ l₁)) ∧
    canvasGetExecutionOrder [1, 2] [(1, 2), (1, 2)] =
      .error "Circular dependency detected: not all components can be ordered" := by
  refine ⟨fun hne => backendTopologicalSort_nonempty edges hne, ?_, rfl⟩
  intro hNoPar hne
  obtain ⟨ord, hok, hperm, hresp⟩ := canvas_order_correct hnd
    (fun e he => (hwf e he).1) (fun e he => (hwf e he).2) hNoPar hacyc hne
  refine ⟨ord, hok, ?_, ?_, ?_⟩
  · intro c hc
    rw [countOcc_perm hperm]
    exact countOcc_eq_one_of_nodup hnd hc
  · exact fun c hc => hperm.mem_iff.1 hc
  · intro e he
    have hin : e.2 ∈ ord := hperm.mem_iff.2 (hwf e he).2
    obtain ⟨l₁, l₂, hsplit⟩ := List.append_of_mem hin
    exact ⟨l₁, l₂, hsplit, hresp e he l₁ l₂ hsplit⟩

/-- Closed instantiation of the execution order theorem on the three-node
chain. -/
theorem execution_order_behaviour_witness :
    backendTopologicalSort [1, 2, 3] [(1, 2), (2, 3)] =
      .error "Workflow contains cycles" ∧
    ∃ ord : List Nat, canvasGetExecutionOrder [1, 2, 3] [(1, 2), (2, 3)] = .ok ord ∧
      (∀ c ∈ [1, 2, 3], countOcc c ord = 1) ∧ (∀ c ∈ ord, c ∈ [1, 2, 3]) ∧
      (∀ e ∈ [(1, 2), (2, 3)], ∃ l₁ l₂ : List Nat, ord = l₁ ++ e.2 :: l₂ ∧ e.1 ∈ l₁) := by
  have hacyc : Acyclic [(1, 2), (2, 3)] :=
    canvas_order_acyclic (by decide) (by decide) (by decide)
      (rfl : canvasGetExecutionOrder [1, 2, 3] [(1, 2), (2, 3)] = .ok [1, 2, 3])
  have hNoPar : ∀ v : Nat, (dependents [(1, 2), (2, 3)] v).Nodup := by
    intro v
    by_cases h1 : (1 : Nat) = v
    · subst h1; decide
    · by_cases h2 : (2 : Nat) = v
      · subst h2; decide
      · simp [dependents, List.filter_cons, h1, h2]
  have h := execution_order_behaviour [1, 2, 3] [(1, 2), (2, 3)]
    (by decide) (by decide) hacyc
  exact ⟨h.1 (by decide), h.2.1 hNoPar (by decide)⟩

/-- C2 counterexample: on the two-component cycle the backend execute
raises the cycle ValueError out of run instead of returning a validation
failure result. -/
theorem run_cycle_backend_raises :
    backendExecute [("A", compA), ("B", compB)] [("A", "B"), ("B", "A")] pfOk =
      .error (.valueError "Workflow contains cycles") := rfl

/-- C2 (amended): for every nonempty graph whose connections reference
existing components the backend execute raises ValueError out of run,
executing no component and producing no results (the outcome does not
depend on the process functions); for every cyclic well-formed canvas
graph, execute_workflow returns zero per-component results, executes no
component, and lets no exception escape. -/
theorem run_cyclic_graph_behaviour :
    (∀ (components : List (String × Component))
        (connections : List (String × String)) (pf pf₁ : ProcessFn),
      components ≠ [] →
      buildGraphErr (components.map Prod.fst) connections = Option.none →
      backendExecute components connections pf =
        .error (.valueError "Workflow contains cycles") ∧
      backendExecute components connections pf =
        backendExecute components connections pf₁) ∧
    (∀ g : CanvasGraph, (g.comps.map CanvasNode.id).Nodup →
      (∀ k ∈ g.conns, k.startId ∈ g.comps.map CanvasNode.id ∧
        k.endId ∈ g.comps.map CanvasNode.id) →
      (∃ v : String, Relation.TransGen
        (edgeStep (g.conns.map (fun k => (k.startId, k.endId)))) v v) →
      canvasExecuteWorkflow g = ([], [])) := by
  constructor
  · intro components connections pf pf₁ hne hb
    refine ⟨backendExecute_nonempty_raises components connections pf hne hb, ?_⟩
    rw [backendExecute_nonempty_raises components connections pf hne hb,
      backendExecute_nonempty_raises components connections pf₁ hne hb]
  · exact fun g hnd hwf hcyc => canvasExecuteWorkflow_cyclic g hnd hwf hcyc

/-- Closed instantiation of the cyclic-run theorem at the two-component
cycles of both engines. -/
theorem run_cyclic_graph_behaviour_witness :
    backendExecute [("A", compA), ("B", compB)] [("A", "B"), ("B", "A")] pfOk =
      .error (.valueError "Workflow contains cycles") ∧
    canvasExecuteWorkflow cyclicCanvas = ([], []) := by
  constructor
  · exact (run_cyclic_graph_behaviour.1 [("A", compA), ("B", compB)]
      [("A", "B"), ("B", "A")] pfOk pfOk (List.cons_ne_nil _ _) rfl).1
  · refine run_cyclic_graph_behaviour.2 cyclicCanvas (by decide) (by decide) ?_
    have h1 : edgeStep (cyclicCanvas.conns.map (fun k => (k.startId, k.endId))) "A" "B" :=
      show ("A", "B") ∈ cyclicCanvas.conns.map (fun k => (k.startId, k.endId)) by decide
    have h2 : edgeStep (cyclicCanvas.conns.map (fun k => (k.startId, k.endId))) "B" "A" :=
      show ("B", "A") ∈ cyclicCanvas.conns.map (fun k => (k.startId, k.endId)) by decide
    exact ⟨"A", Relation.TransGen.tail (Relation.TransGen.single h1) h2⟩

/-- C3 counterexample: in the Loader-Model-Report scenario with the Model
failing, the canvas run returns an empty results dict (no error record
keyed by the failed component) and never executes Report. -/
theorem run_failed_component_counterexample :
    canvasExecuteWorkflow scenarioCanvas = ([], ["loader", "model"]) ∧
    dlookup (canvasExecuteWorkflow scenarioCanvas).1 "model" = Option.none :=
  ⟨rfl, rfl⟩

/-- C3 (amended): the backend engine never reaches per-component execution
on a nonempty graph — the broken sort raises first, so no per-component
containment happens there — and the canvas engine executes the order
exactly up to and including the first component whose result aborts (error
status or non-dict result), then discards all accumulated results and
skips the remaining components, letting no exception escape. -/
theorem run_failed_component_behaviour :
    (∀ (components : List (String × Component))
        (connections : List (String × String)) (pf : ProcessFn),
      components ≠ [] →
      buildGraphErr (components.map Prod.fst) connections = Option.none →
      backendExecute components connections pf =
        .error (.valueError "Workflow contains cycles")) ∧
    (∀ (g : CanvasGraph) (o₁ : List String) (cid : String) (o₂ : List String),
      (∀ c ∈ o₁, resultAborts g c = false) → resultAborts g cid = true →
      (g.comps.find? (fun c => decide (c.id = cid))).isSome →
      canvasRunLoop g (o₁ ++ cid :: o₂) [] [] = ([], o₁ ++ [cid])) := by
  constructor
  · exact fun comps conns pf => backendExecute_nonempty_raises comps conns pf
  · intro g o₁ cid o₂ h1 h2 h3
    have h := canvasRunLoop_abort g o₁ cid o₂ [] [] h1 h2 h3
    simpa using h

/-- Closed instantiation of the failed-component theorem at a one-node
backend graph and at the Loader-Model-Report scenario. -/
theorem run_failed_component_behaviour_witness :
    backendExecute [("A", compA)] [] pfOk =
      .error (.valueError "Workflow contains cycles") ∧
    canvasRunLoop scenarioCanvas (["loader"] ++ "model" :: ["report"]) [] [] =
      ([], ["loader", "model"]) := by
  constructor
  · exact run_failed_component_behaviour.1 [("A", compA)] [] pfOk
      (List.cons_ne_nil _ _) rfl
  · have h := run_failed_component_behaviour.2 scenarioCanvas ["loader"] "model"
      ["report"] (by decide) (by decide) (by decide)
    simpa using h

end Workflow

namespace Workflow

/-- C4: can_connect returns success exactly when none of the four rules is
violated: the two ports have different directions, they belong to two
distinct existing parent components, the input port of the pair has no
incoming connection yet, and the data types agree or one of them is any; in
particular each of the four violations alone forces failure. -/
theorem canConnect_spec (connections : List UIConn) (port1 port2 : UIPort) :
    canConnect connections port1 port2 = true ↔
      (port1.is_output ≠ port2.is_output ∧
       (∃ p1 p2 : Nat, port1.parent = some p1 ∧ port2.parent = some p2 ∧ p1 ≠ p2) ∧
       (∀ k ∈ connections, k.end_port ≠ some (inputPortOf port1 port2)) ∧
       (port1.port_type = port2.port_type ∨ port1.port_type = "any" ∨
        port2.port_type = "any")) := by
  rw [canConnect]
  by_cases hdir : port1.is_output = port2.is_output
  · simp [hdir]
  · cases hp1 : port1.parent with
    | none => simp [hdir, hp1]
    | some p1 =>
      cases hp2 : port2.parent with
      | none => simp [hdir, hp1, hp2]
      | some p2 =>
        by_cases hpp : p1 = p2
        · simp [hdir, hp1, hp2, hpp]
        · by_cases hconn : ∃ k ∈ connections,
              k.end_port = some (inputPortOf port1 port2)
          · have hcb : connections.any
                (fun k => decide (k.end_port = some (inputPortOf port1 port2)))
                = true := by
              obtain ⟨k, hk, hke⟩ := hconn
              exact List.any_eq_true.2 ⟨k, hk, by simp [hke]⟩
            simp [hdir, hp1, hp2, hpp, hcb]
            intro hall
            obtain ⟨k, hk, hke⟩ := hconn
            exact absurd hke (hall k hk)
          · have hcb : connections.any
                (fun k => decide (k.end_port = some (inputPortOf port1 port2)))
                = false := by
              rw [List.any_eq_false]
              intro k hk
              simp only [decide_eq_true_eq]
              exact fun hke => hconn ⟨k, hk, hke⟩
            simp [hdir, hp1, hp2, hpp, hcb]
            intro _ k hk hke
            exact hconn ⟨k, hk, hke⟩

end Workflow

namespace Workflow

/-- C5: the save/restore round trip loses every connection: restore_state
recreates the components with fresh uuids, so restore_connection looks the
saved old parent ids up in the new components dict, finds nothing, and
silently drops the connection. The demo canvas with one connection restores
to two components of the right types but zero connections. -/
theorem save_restore_drops_connections :
    demoCanvas.connections.length = 1 ∧
    (restoreState (saveState demoCanvas) 2).components.length = 2 ∧
    (restoreState (saveState demoCanvas) 2).components.map (fun kv => kv.2.ctype)
      = ["FileComponent", "CNNComponent"] ∧
    (restoreState (saveState demoCanvas) 2).connections = [] :=
  ⟨rfl, rfl, rfl, rfl⟩

/-- C6: on the empty workflow graph the backend sort returns the empty
order (its only succeeding case) and canvas validation reports no issue,
but the canvas _get_execution_order raises its circular-dependency
RuntimeError on the empty graph (the empty initial queue triggers the
guard) instead of returning the empty order. -/
theorem empty_graph_order :
    backendTopologicalSort ([] : List String) [] = .ok [] ∧
    canvasValidateWorkflow ⟨[], []⟩ = [] ∧
    canvasGetExecutionOrder ([] : List String) [] =
      .error "Circular dependency detected: no valid starting point found" :=
  ⟨rfl, rfl, rfl⟩

/-- C7 counterexample: registering an input port named a twice on a fresh
component raises nothing and records no error state — the second
registration silently overwrites the first, leaving a single port with the
new type — where the claim demands a DuplicatePortError failure. -/
theorem duplicate_port_registration_counterexample :
    (addInputPort (addInputPort (mkComponent "c" [] []) "a" "tensor" "") "a" "list" "").status
        = "initialized" ∧
    (addInputPort (addInputPort (mkComponent "c" [] []) "a" "tensor" "") "a" "list" "").errorMsg
        = Option.none ∧
    (addInputPort (addInputPort (mkComponent "c" [] []) "a" "tensor" "") "a" "list" "").metadata
        = some ⟨"", "", "", "", "", some [("a", ⟨"list", ""⟩)], Option.none⟩ ∧
    (addInputPort (addInputPort (mkComponent "c" [] []) "a" "tensor" "") "a" "list" "").input_ports
        = [("a", PV.none)] :=
  ⟨rfl, rfl, rfl, rfl⟩

/-- C7 (amended): add_input_port and add_output_port never fail; when a
port of the same direction and name already exists, its metadata entry is
overwritten in place and its bound value is reset to None, and otherwise the
port is registered; ports of other names and of the other direction are
untouched and no error state is recorded. -/
theorem add_port_registration (c : Component) (name ptype pdesc : String) :
    ((addInputPort c name ptype pdesc).status = c.status ∧
     (addInputPort c name ptype pdesc).errorMsg = c.errorMsg ∧
     (∃ m : CompMeta, (addInputPort c name ptype pdesc).metadata = some m ∧
       ∃ ip : List (String × PortMeta), m.input_ports = some ip ∧
         dlookup ip name = some ⟨ptype, pdesc⟩) ∧
     dlookup (addInputPort c name ptype pdesc).input_ports name = some PV.none ∧
     (∀ q : String, q ≠ name →
       dlookup (addInputPort c name ptype pdesc).input_ports q
         = dlookup c.input_ports q) ∧
     (addInputPort c name ptype pdesc).output_ports = c.output_ports) ∧
    ((addOutputPort c name ptype pdesc).status = c.status ∧
     (addOutputPort c name ptype pdesc).errorMsg = c.errorMsg ∧
     (∃ m : CompMeta, (addOutputPort c name ptype pdesc).metadata = some m ∧
       ∃ op : List (String × PortMeta), m.output_ports = some op ∧
         dlookup op name = some ⟨ptype, pdesc⟩) ∧
     dlookup (addOutputPort c name ptype pdesc).output_ports name = some PV.none ∧
     (∀ q : String, q ≠ name →
       dlookup (addOutputPort c name ptype pdesc).output_ports q
         = dlookup c.output_ports q) ∧
     (addOutputPort c name ptype pdesc).input_ports = c.input_ports) := by
  constructor
  · refine ⟨rfl, rfl, ⟨_, rfl, _, rfl, dlookup_dset_self _ _ _⟩,
      dlookup_dset_self _ _ _, ?_, rfl⟩
    exact fun q hq => dlookup_dset_ne _ _ hq
  · refine ⟨rfl, rfl, ⟨_, rfl, _, rfl, dlookup_dset_self _ _ _⟩,
      dlookup_dset_self _ _ _, ?_, rfl⟩
    exact fun q hq => dlookup_dset_ne _ _ hq

/-- Closed instantiation of the port registration theorem on a fresh
component. -/
theorem add_port_registration_witness :
    dlookup (addInputPort (mkComponent "c" [] []) "a" "tensor" "").input_ports "a"
      = some PV.none ∧
    dlookup (addInputPort (mkComponent "c" [] []) "a" "tensor" "").input_ports "b"
      = Option.none ∧
    (addOutputPort (mkComponent "c" [] []) "o" "metrics" "").input_ports = [] := by
  have h := add_port_registration (mkComponent "c" [] []) "a" "tensor" ""
  have h₂ := add_port_registration (mkComponent "c" [] []) "o" "metrics" ""
  refine ⟨h.1.2.2.2.1, ?_, h₂.2.2.2.2.2.2⟩
  have hb := h.1.2.2.2.2.1 "b" (by decide)
  rw [hb]
  rfl

/-- C8: on a component whose input ports dict exists, set_input fails —
returning False and recording an invalid-port error — exactly when the port
name is not a declared input, leaving the bound inputs unchanged; on a
declared input it stores the given value (of any type, unchecked) and
returns True, changing nothing else. -/
theorem setInput_spec (c : Component) (m : CompMeta)
    (ip : List (String × PortMeta)) (hm : c.metadata = some m)
    (hip : m.input_ports = some ip) (port : String) (v : PV) :
    (dlookup ip port = Option.none →
      setInput c port v = .ok (false, setError c ("Invalid input port: " ++ port)) ∧
      (setError c ("Invalid input port: " ++ port)).input_ports = c.input_ports ∧
      (setError c ("Invalid input port: " ++ port)).status = "error") ∧
    (∀ pm : PortMeta, dlookup ip port = some pm →
      ∃ c₁ : Component, setInput c port v = .ok (true, c₁) ∧
        dlookup c₁.input_ports port = some v ∧
        (∀ q : String, q ≠ port → dlookup c₁.input_ports q = dlookup c.input_ports q) ∧
        c₁.status = c.status ∧ c₁.errorMsg = c.errorMsg ∧
        c₁.output_ports = c.output_ports ∧ c₁.metadata = c.metadata) := by
  constructor
  · intro hnone
    refine ⟨?_, rfl, rfl⟩
    simp only [setInput, hm, hip, hnone]
  · intro pm hpm
    refine ⟨{ c with input_ports := dset c.input_ports port v }, ?_, ?_, ?_,
      rfl, rfl, rfl, rfl⟩
    · simp only [setInput, hm, hip, hpm]
    · exact dlookup_dset_self _ _ _
    · exact fun q hq => dlookup_dset_ne _ _ hq

/-- Closed instantiation of the set_input theorem on a component with one
declared input port. -/
theorem setInput_spec_witness :
    setInput (addInputPort (mkComponent "d" [] []) "data" "dataset" "") "nope"
        (PV.int 5) =
      .ok (false, setError (addInputPort (mkComponent "d" [] []) "data" "dataset" "")
        "Invalid input port: nope") ∧
    ∃ c₁ : Component,
      setInput (addInputPort (mkComponent "d" [] []) "data" "dataset" "") "data"
          (PV.int 5) = .ok (true, c₁) ∧
      dlookup c₁.input_ports "data" = some (PV.int 5) := by
  have h := setInput_spec (addInputPort (mkComponent "d" [] []) "data" "dataset" "")
    ⟨"", "", "", "", "", some [("data", ⟨"dataset", ""⟩)], Option.none⟩
    [("data", ⟨"dataset", ""⟩)] rfl rfl "nope" (PV.int 5)
  have h₂ := setInput_spec (addInputPort (mkComponent "d" [] []) "data" "dataset" "")
    ⟨"", "", "", "", "", some [("data", ⟨"dataset", ""⟩)], Option.none⟩
    [("data", ⟨"dataset", ""⟩)] rfl rfl "data" (PV.int 5)
  refine ⟨(h.1 rfl).1, ?_⟩
  obtain ⟨c₁, hc₁, hl, -⟩ := h₂.2 ⟨"dataset", ""⟩ rfl
  exact ⟨c₁, hc₁, hl⟩

/-- C9: None is the unset marker of the component interface: has_output
holds exactly for an output entry storing a non-None value; a required
input bound to None fails validate_inputs the same way as one never bound;
and an upstream component that stored None on an output port makes a
downstream component that receives this output on a required input fail its
own validation. -/
theorem none_unset_marker (c : Component) (p : String) :
    (hasOutput c p = true ↔
      ∃ v : PV, dlookup c.output_ports p = some v ∧ v ≠ PV.none) ∧
    (p ∈ c.required_inputs →
      (dlookup c.input_ports p = Option.none ∨
        dlookup c.input_ports p = some PV.none) →
      (validateInputs c).1 = false ∧ (validateInputs c).2.status = "error") ∧
    (∀ (u d : Component) (q : String) (m : CompMeta)
        (ip : List (String × PortMeta)) (pm : PortMeta),
      dlookup u.output_ports q = some PV.none →
      d.metadata = some m → m.input_ports = some ip → dlookup ip p = some pm →
      p ∈ d.required_inputs →
      getOutput u q = PV.none ∧ hasOutput u q = false ∧
      ∃ d₁ : Component, setInput d p (getOutput u q) = .ok (true, d₁) ∧
        (validateInputs d₁).1 = false) := by
  refine ⟨?_, ?_, ?_⟩
  · rw [hasOutput]
    cases hl : dlookup c.output_ports p with
    | none => simp
    | some v =>
      cases v with
      | none => simp
      | str s => simp [hl]
      | int n => simp [hl]
      | dict kvs => simp [hl]
  · intro hp hv
    exact validateInputs_false_of_bad hp hv
  · intro u d q m ip pm hq hm hip hpm hp
    have hget : getOutput u q = PV.none := by rw [getOutput, hq]; rfl
    have hhas : hasOutput u q = false := by rw [hasOutput, hq]
    refine ⟨hget, hhas, ?_⟩
    refine ⟨{ d with input_ports := dset d.input_ports p (getOutput u q) }, ?_, ?_⟩
    · simp only [setInput, hm, hip, hpm]
    · have hbad : dlookup (dset d.input_ports p (getOutput u q)) p
          = some PV.none := by
        rw [dlookup_dset_self, hget]
      have hreq : p ∈ ({ d with
          input_ports := dset d.input_ports p (getOutput u q) } : Component).required_inputs := hp
      exact (validateInputs_false_of_bad hreq (Or.inr hbad)).1

/-- Closed instantiation of the None-marker theorem: an upstream component
that stored None cascades a validation failure into its dependent. -/
theorem none_unset_marker_witness :
    hasOutput (addOutputPort (mkComponent "u" [] []) "res" "metrics" "") "res"
      = false ∧
    ∃ d₁ : Component,
      setInput (addInputPort (mkComponent "d2" [] ["data"]) "data" "any" "") "data"
          (getOutput (addOutputPort (mkComponent "u" [] []) "res" "metrics" "") "res")
        = .ok (true, d₁) ∧
      (validateInputs d₁).1 = false := by
  have h := none_unset_marker
    (addInputPort (mkComponent "d2" [] ["data"]) "data" "any" "") "data"
  have h₃ := h.2.2 (addOutputPort (mkComponent "u" [] []) "res" "metrics" "")
    (addInputPort (mkComponent "d2" [] ["data"]) "data" "any" "") "res"
    ⟨"", "", "", "", "", some [("data", ⟨"any", ""⟩)], Option.none⟩
    [("data", ⟨"any", ""⟩)] ⟨"any", ""⟩ rfl rfl rfl rfl (by decide)
  exact ⟨h₃.2.1, h₃.2.2⟩

/-- C10: every write through the progress setter stores its argument
clamped into [0, 100], and starting from a freshly constructed component
(whose progress is 0) any sequence of component interface operations keeps
the progress within [0, 100]. -/
theorem progress_clamped :
    (∀ (c : Component) (v : Int),
      (setProgress c v).progress = max 0 (min 100 v) ∧
      0 ≤ (setProgress c v).progress ∧ (setProgress c v).progress ≤ 100) ∧
    (∀ (iid : String) (config : List (String × PV)) (required : List String)
        (ops : List CompOp),
      (mkComponent iid config required).progress = 0 ∧
      0 ≤ (ops.foldl applyOp (mkComponent iid config required)).progress ∧
      (ops.foldl applyOp (mkComponent iid config required)).progress ≤ 100) := by
  constructor
  · intro c v
    refine ⟨rfl, ?_, ?_⟩ <;> simp [setProgress] <;> omega
  · intro iid config required ops
    have h := foldl_applyOp_progress_bounds ops (mkComponent iid config required)
      le_rfl ((by norm_num : (0 : Int) ≤ 100))
    exact ⟨rfl, h.1, h.2⟩

end Workflow

namespace Workflow

/-- Closed instantiation of the can_connect characterisation: an output
port of one component connects to a matching free input port of another. -/
theorem canConnect_spec_witness :
    canConnect [] ⟨0, "o", "data", true, some 1⟩ ⟨1, "i", "data", false, some 2⟩
      = true := by
  refine (canConnect_spec [] ⟨0, "o", "data", true, some 1⟩
    ⟨1, "i", "data", false, some 2⟩).2 ⟨by decide, ⟨1, 2, rfl, rfl, by decide⟩,
    ?_, Or.inl rfl⟩
  intro k hk
  cases hk

end Workflow
